import Mathlib

/-!
# Verification of the `spooky` HTTP/3 reverse proxy core

A shallow embedding of the parts of the `spooky` codebase that the checked
claims are about, together with theorems settling each claim:

* `crates/lb/src/lib.rs` — backend health state machine (`BackendState`,
  `BackendPool`) and the three load-balancing strategies (`RoundRobin`,
  `ConsistentHash`, `Random`) plus the FNV-1a ring (`build_ring`, `hash64`).
* `crates/bridge/src/h3_to_h2.rs` — `build_h2_request`.
* `crates/edge/src/quic_listener.rs` — `find_upstream_for_request`, the
  dispatch logic of `handle_request_finish` (response selection and metrics
  increments), `send_backend_response` header filtering, and the datagram
  connection-resolution cascade of `poll` / `take_or_create_connection`.

Machine integers are modelled as `Nat` with explicit reductions modulo
`2^32` / `2^64` where the Rust code can overflow (`saturating_add`,
`saturating_mul`, `wrapping_add`, `wrapping_mul`).  `Instant` values are
modelled as `Nat` timestamps passed explicitly to the operations that read
the clock.  Byte strings are `List Nat` with byte values below 256.
-/

namespace Spooky

/-- `u32::MAX`. -/
def u32max : Nat := 4294967295

/-- `2^64`, the modulus of `u64` / `usize` arithmetic. -/
def u64size : Nat := 18446744073709551616

/-- `u32::saturating_add(x, 1)`. -/
def satAdd1 (x : Nat) : Nat := min (x + 1) u32max

/-- `u32::saturating_mul`. -/
def satMul32 (x y : Nat) : Nat := min (x * y) u32max

/-- UTF-8 bytes of an ASCII string (`str::as_bytes`); all strings the model
feeds through here are ASCII, where code points coincide with bytes. -/
def strBytes (s : String) : List Nat := s.toList.map Char.toNat

/-- Bytes of the decimal representation of `n` (`u32::to_string().as_bytes()`). -/
def decimalBytes (n : Nat) : List Nat := (Nat.toDigits 10 n).map Char.toNat

/-! ## Load balancer crate: health state (`crates/lb/src/lib.rs`) -/

/-- `spooky_config::config::HealthCheck` (the fields the lb crate reads). -/
structure HealthCheck where
  path : String
  interval : Nat
  timeout_ms : Nat
  failure_threshold : Nat
  success_threshold : Nat
  cooldown_ms : Nat
  deriving Repr, DecidableEq

/-- `spooky_config::config::Backend`.  The address is kept as its byte string
because the consistent-hash ring hashes its bytes. -/
structure Backend where
  id : String
  address : List Nat
  weight : Nat
  health_check : HealthCheck
  deriving Repr, DecidableEq

/-- `HealthState` from `crates/lb/src/lib.rs`.  The `until` instant is a `Nat`
timestamp. -/
inductive HealthState where
  | Healthy : HealthState
  | Unhealthy (until_ : Nat) (successes : Nat) : HealthState
  deriving Repr, DecidableEq

/-- `HealthTransition` from `crates/lb/src/lib.rs`. -/
inductive HealthTransition where
  | BecameHealthy : HealthTransition
  | BecameUnhealthy : HealthTransition
  deriving Repr, DecidableEq

/-- `BackendState` from `crates/lb/src/lib.rs`. -/
structure BackendState where
  backend : Backend
  consecutive_failures : Nat
  health_state : HealthState
  deriving Repr, DecidableEq

namespace BackendState

/-- `BackendState::new`. -/
def new (b : Backend) : BackendState :=
  { backend := b, consecutive_failures := 0, health_state := .Healthy }

/-- `BackendState::is_healthy`. -/
def is_healthy (s : BackendState) : Bool :=
  match s.health_state with
  | .Healthy => true
  | .Unhealthy _ _ => false

/-- `BackendState::address`. -/
def address (s : BackendState) : List Nat := s.backend.address

/-- `BackendState::weight` (`self.backend.weight.max(1)`). -/
def weight (s : BackendState) : Nat := max s.backend.weight 1

/-- `BackendState::record_success`, with the `Instant::now()` read passed in
as `now`. -/
def record_success (now : Nat) (s : BackendState) :
    BackendState × Option HealthTransition :=
  match s.health_state with
  | .Healthy => ({ s with consecutive_failures := 0 }, none)
  | .Unhealthy until_ successes =>
    if now < until_ then (s, none)
    else
      let successes' := successes + 1
      if s.backend.health_check.success_threshold ≤ successes' then
        ({ s with consecutive_failures := 0, health_state := .Healthy },
         some .BecameHealthy)
      else
        ({ s with health_state := .Unhealthy until_ successes' }, none)

/-- `BackendState::record_failure`, with the `Instant::now()` read passed in
as `now`. -/
def record_failure (now : Nat) (s : BackendState) :
    BackendState × Option HealthTransition :=
  let cf := satAdd1 s.consecutive_failures
  let threshold := s.backend.health_check.failure_threshold
  if cf < threshold then
    ({ s with consecutive_failures := cf }, none)
  else
    ({ s with consecutive_failures := 0,
              health_state := .Unhealthy (now + s.backend.health_check.cooldown_ms) 0 },
     some .BecameUnhealthy)

end BackendState

/-- `BackendPool` from `crates/lb/src/lib.rs`. -/
structure BackendPool where
  backends : List BackendState
  deriving Repr, DecidableEq

namespace BackendPool

/-- `BackendPool::new`. -/
def new (bs : List Backend) : BackendPool :=
  { backends := bs.map BackendState.new }

/-- `BackendPool::len`. -/
def len (p : BackendPool) : Nat := p.backends.length

/-- `BackendPool::is_empty`. -/
def is_empty (p : BackendPool) : Bool := p.backends.isEmpty

/-- `BackendPool::backend` (`self.backends.get(index)`). -/
def backend (p : BackendPool) (index : Nat) : Option BackendState :=
  p.backends.get? index

/-- `BackendPool::address`. -/
def address (p : BackendPool) (index : Nat) : Option (List Nat) :=
  (p.backends.get? index).map BackendState.address

/-- `BackendPool::mark_success`: no-op returning `None` when the index is out
of range. -/
def mark_success (now : Nat) (index : Nat) (p : BackendPool) :
    BackendPool × Option HealthTransition :=
  match p.backends.get? index with
  | some b =>
    let r := b.record_success now
    ({ backends := p.backends.set index r.1 }, r.2)
  | none => (p, none)

/-- `BackendPool::mark_failure`: no-op returning `None` when the index is out
of range. -/
def mark_failure (now : Nat) (index : Nat) (p : BackendPool) :
    BackendPool × Option HealthTransition :=
  match p.backends.get? index with
  | some b =>
    let r := b.record_failure now
    ({ backends := p.backends.set index r.1 }, r.2)
  | none => (p, none)

/-- `BackendPool::healthy_indices`: indices of healthy backends in ascending
order (`enumerate` + `filter_map`). -/
def healthy_indices (p : BackendPool) : List Nat :=
  p.backends.enum.filterMap fun ib => if ib.2.is_healthy then some ib.1 else none

/-- `BackendPool::all_indices`. -/
def all_indices (p : BackendPool) : List Nat := List.range p.backends.length

end BackendPool

/-! ### Basic facts about `healthy_indices` -/

/-- The health of the backend stored at `i`, `false` when out of range. -/
def healthyAt (p : BackendPool) (i : Nat) : Bool :=
  match p.backends.get? i with
  | some b => b.is_healthy
  | none => false

/-! ## Load-balancing strategies (`crates/lb/src/lib.rs`) -/

/-- `DEFAULT_REPLICAS` from `crates/lb/src/lib.rs`. -/
def DEFAULT_REPLICAS : Nat := 64

/-- `hash64` from `crates/lb/src/lib.rs`: FNV-1a over bytes with 64-bit
wrapping multiplication. -/
def hash64 (data : List Nat) : Nat :=
  data.foldl (fun hash byte => ((hash ^^^ byte % 256) * 0x00000100000001b3) % u64size)
    0xcbf29ce484222325

/-- `RoundRobin` from `crates/lb/src/lib.rs`; `next` is the `usize` cursor. -/
structure RoundRobin where
  next : Nat
  deriving Repr, DecidableEq

namespace RoundRobin

/-- `RoundRobin::new`. -/
def new : RoundRobin := ⟨0⟩

/-- `RoundRobin::pick`: returns the picked index and the mutated cursor
(`self.next = self.next.wrapping_add(1)`). -/
def pick (rr : RoundRobin) (pool : BackendPool) : Option Nat × RoundRobin :=
  let candidates := pool.healthy_indices
  if candidates.isEmpty then (none, rr)
  else
    (some (candidates.getD (rr.next % candidates.length) 0),
     ⟨(rr.next + 1) % u64size⟩)

end RoundRobin

/-- `Random::pick` from `crates/lb/src/lib.rs`.  The thread-local RNG draw is
modelled as an oracle `r : Nat`; `rng.gen_range(0..len)` is its value reduced
into range, which is the only fact the claims use about it. -/
def randomPick (r : Nat) (pool : BackendPool) : Option Nat :=
  let candidates := pool.healthy_indices
  if candidates.isEmpty then none
  else some (candidates.getD (r % candidates.length) 0)

/-- The sorted-map ring (`BTreeMap<u64, usize>`), modelled as an association
list strictly sorted by key.  `ringInsert` is `BTreeMap::insert`: it keeps
strict sortedness and overwrites the value on an equal key. -/
def ringInsert (k v : Nat) : List (Nat × Nat) → List (Nat × Nat)
  | [] => [(k, v)]
  | (k', v') :: rest =>
    if k < k' then (k, v) :: (k', v') :: rest
    else if k = k' then (k, v) :: rest
    else (k', v') :: ringInsert k v rest

/-- The number of virtual nodes inserted per backend by `build_ring`:
`replicas.saturating_mul(weight)` where `weight = backend.weight.max(1)`. -/
def virtualNodes (replicas weight : Nat) : Nat :=
  satMul32 replicas (max weight 1)

/-- The byte key hashed for one virtual node:
`address ++ b"-" ++ replica.to_string()`. -/
def nodeKey (address : List Nat) (replica : Nat) : List Nat :=
  address ++ [45] ++ decimalBytes replica

/-- `build_ring` from `crates/lb/src/lib.rs`: for each index (skipping ones
whose backend lookup fails), insert `replicas.saturating_mul(weight)` virtual
nodes keyed by `hash64(address ++ "-" ++ replica)`. -/
def build_ring (pool : BackendPool) (indices : List Nat) (replicas : Nat) :
    List (Nat × Nat) :=
  indices.foldl
    (fun ring idx =>
      match pool.backend idx with
      | none => ring
      | some b =>
        (List.range (virtualNodes replicas b.backend.weight)).foldl
          (fun ring replica => ringInsert (hash64 (nodeKey b.address replica)) idx ring)
          ring)
    []

/-- The `BTreeMap` lookup done by `ConsistentHash::pick`:
`ring.range(key_hash..).next().or_else(|| ring.iter().next())`, propagating
`None` when the ring is empty. -/
def ringLookup (h : Nat) (ring : List (Nat × Nat)) : Option Nat :=
  match ring.find? (fun e => h ≤ e.1) with
  | some e => some e.2
  | none => ring.head?.map Prod.snd

/-- `ConsistentHash` from `crates/lb/src/lib.rs`. -/
structure ConsistentHash where
  replicas : Nat
  deriving Repr, DecidableEq

namespace ConsistentHash

/-- `ConsistentHash::new` (`replicas.max(1)`). -/
def new (replicas : Nat) : ConsistentHash := ⟨max replicas 1⟩

/-- `ConsistentHash::pick`. -/
def pick (ch : ConsistentHash) (key : List Nat) (pool : BackendPool) :
    Option Nat :=
  if pool.is_empty then none
  else
    let candidates := pool.healthy_indices
    if candidates.isEmpty then none
    else
      let ring := build_ring pool candidates ch.replicas
      let key_hash := hash64 key
      ringLookup key_hash ring

end ConsistentHash

/-- `LoadBalancing` from `crates/lb/src/lib.rs`. -/
inductive LoadBalancing where
  | roundRobin (rr : RoundRobin)
  | consistentHash (ch : ConsistentHash)
  | random
  deriving Repr, DecidableEq

namespace LoadBalancing

/-- `LoadBalancing::from_config`. -/
def from_config (value : String) : Except String LoadBalancing :=
  let mode := value.trim.toLower
  if mode = "round-robin" ∨ mode = "round_robin" ∨ mode = "rr" then
    .ok (roundRobin RoundRobin.new)
  else if mode = "consistent-hash" ∨ mode = "consistent_hash" ∨ mode = "ch" then
    .ok (consistentHash (ConsistentHash.new DEFAULT_REPLICAS))
  else if mode = "random" then
    .ok random
  else
    .error ("unsupported load balancing type: " ++ value)

/-- `LoadBalancing::pick`: dispatch to the strategy; `rng` is the oracle
consumed only by the `Random` arm. -/
def pick (lb : LoadBalancing) (key : List Nat) (pool : BackendPool)
    (rng : Nat) : Option Nat × LoadBalancing :=
  match lb with
  | roundRobin rr =>
    let r := rr.pick pool
    (r.1, roundRobin r.2)
  | consistentHash ch => (ch.pick key pool, consistentHash ch)
  | random => (randomPick rng pool, random)

end LoadBalancing

/-! ## Claim C7: round-robin cycling

`RoundRobin::pick` computes `candidates[self.next % candidates.len()]` and
then advances the cursor with `usize::wrapping_add(1)`.  The wraparound
breaks the "each healthy index exactly once per `len` picks" property for
windows that cross `2^64`, so the claim is settled as corrected: it holds for
every window that does not cross the cursor wraparound. -/

/-- A run of `n` successive `RoundRobin::pick` calls against a fixed pool,
threading the mutated cursor, collecting the returned indices. -/
def rrRun (pool : BackendPool) : RoundRobin → Nat → List (Option Nat)
  | _, 0 => []
  | rr, n + 1 =>
    let r := rr.pick pool
    r.1 :: rrRun pool r.2 n

/-- The three-backend pool used to exhibit the cursor-wraparound behaviour. -/
def pool3 : BackendPool :=
  BackendPool.new
    [⟨"a", strBytes "10.0.0.1:1", 1, ⟨"/health", 1000, 1000, 3, 1, 500⟩⟩,
     ⟨"b", strBytes "10.0.0.2:1", 1, ⟨"/health", 1000, 1000, 3, 1, 500⟩⟩,
     ⟨"c", strBytes "10.0.0.3:1", 1, ⟨"/health", 1000, 1000, 3, 1, 500⟩⟩]

/-! ## Claim C6: consistent hashing matches the reference ring algorithm

The reference (`specPick`) is written from the spec's description: per healthy
backend, virtual nodes keyed by `hash64(address ++ "-" ++ replica)`; pick the
entry with the smallest key `≥ hash64(key)`, wrapping to the smallest key; an
entry's backend is the one that inserted that key last (map overwrite).  The
one amendment forced by the code is the virtual-node count: the code computes
`replicas.saturating_mul(weight)`, not the claimed `replicas × max(weight,1)`
(`c6_counterexample` below). -/

/-- The virtual-node entries one index contributes, in insertion order. -/
def entriesFor (pool : BackendPool) (replicas idx : Nat) : List (Nat × Nat) :=
  match pool.backend idx with
  | none => []
  | some b =>
    (List.range (virtualNodes replicas b.backend.weight)).map
      (fun replica => (hash64 (nodeKey b.address replica), idx))

/-- All virtual-node entries, in the order `build_ring` inserts them. -/
def ringEntries (pool : BackendPool) (indices : List Nat) (replicas : Nat) :
    List (Nat × Nat) :=
  indices.flatMap (entriesFor pool replicas)

/-- The value a key-value map built by repeated overwriting insertion holds at
`k`: the value of the last entry with key `k`, if any. -/
def lastAssoc (k : Nat) (entries : List (Nat × Nat)) : Option Nat :=
  entries.foldl (fun acc e => if e.1 = k then some e.2 else acc) none

/-- The ring key the spec's words select: the smallest ring key `≥ h` (the
"first" entry of the sorted ring at or after the hash), wrapping to the
smallest ring key if none. -/
def specSelect (h : Nat) (ks : List Nat) : Option Nat :=
  ((ks.filter (fun k => h ≤ k)).minimum?).orElse fun _ => ks.minimum?

/-- Reference pick, following the spec's words: hash the key, select a ring
key with `specSelect`, and return the backend that inserted that key last
(map overwrite semantics). -/
def specPick (replicas : Nat) (key : List Nat) (pool : BackendPool) :
    Option Nat :=
  if pool.is_empty then none
  else if pool.healthy_indices.isEmpty then none
  else
    (specSelect (hash64 key)
        ((ringEntries pool pool.healthy_indices replicas).map Prod.fst)).bind
      fun k => lastAssoc k (ringEntries pool pool.healthy_indices replicas)

/-- Map lookup on the ring association list. -/
def assocOf (ring : List (Nat × Nat)) (k : Nat) : Option Nat :=
  (ring.find? (fun e => e.1 == k)).map Prod.snd

/-! ## Claim C1: failure threshold, cooldown and success threshold

`mark_success` / `mark_failure` read `Instant::now()`; a trace of pool
operations is modelled as a list of `TOp`, each carrying the clock value the
operation observed. -/

/-- One timed pool operation: `mark_success(idx)` (when `success`) or
`mark_failure(idx)` at clock value `now`. -/
structure TOp where
  success : Bool
  idx : Nat
  now : Nat
  deriving Repr, DecidableEq

/-- Apply one operation to the pool (dropping the returned transition). -/
def BackendPool.applyOp (p : BackendPool) (op : TOp) : BackendPool :=
  if op.success then (p.mark_success op.now op.idx).1
  else (p.mark_failure op.now op.idx).1

/-- Apply a trace of operations to the pool, oldest first. -/
def BackendPool.applyOps (p : BackendPool) (ops : List TOp) : BackendPool :=
  ops.foldl BackendPool.applyOp p

/-- Apply one record operation to a single backend state. -/
def BackendState.apply (s : BackendState) (success : Bool) (now : Nat) :
    BackendState :=
  if success then (s.record_success now).1 else (s.record_failure now).1

/-- Apply a trace to a single backend state (the trace's indices ignored). -/
def applyTrace (s : BackendState) (ops : List TOp) : BackendState :=
  ops.foldl (fun s op => s.apply op.success op.now) s

/-- The sub-trace of operations addressed to index `i`. -/
def opsFor (i : Nat) (ops : List TOp) : List TOp :=
  ops.filter (fun op => op.idx == i)

/-- Credit toward healing: a healthy state needs nothing more (`thr`); an
unhealthy one has accumulated `successes`. -/
def creditOf (thr : Nat) (s : BackendState) : Nat :=
  match s.health_state with
  | .Healthy => thr
  | .Unhealthy _ c => c

/-- The number of success operations recorded at or after the cooldown
expiry `u`. -/
def postSuccesses (u : Nat) (ops : List TOp) : Nat :=
  (ops.filter (fun op => op.success && decide (u ≤ op.now))).length

/-! ## H3→H2 bridge (`crates/bridge/src/h3_to_h2.rs`) -/

/-- `BridgeError` from `crates/bridge/src/h3_to_h2.rs`. -/
inductive BridgeError where
  | InvalidMethod : BridgeError
  | InvalidUri : BridgeError
  | InvalidHeader : BridgeError
  | Build : BridgeError
  deriving Repr, DecidableEq

/-- RFC 7230 `tchar` bytes, the validity domain of `Method::from_bytes` and
`HeaderName::from_bytes`: digits, letters, and
`! # $ % & ' * + - . ^ _ ` | ~`. -/
def isTokenByte (b : Nat) : Bool :=
  (48 ≤ b && b ≤ 57) || (97 ≤ b && b ≤ 122) || (65 ≤ b && b ≤ 90) ||
  b == 33 || b == 35 || b == 36 || b == 37 || b == 38 || b == 39 ||
  b == 42 || b == 43 || b == 45 || b == 46 || b == 94 || b == 95 ||
  b == 96 || b == 124 || b == 126

/-- ASCII lowercasing of one byte (`HeaderName` normalisation). -/
def lowerByte (b : Nat) : Nat := if 65 ≤ b && b ≤ 90 then b + 32 else b

/-- `Method::from_bytes` validity: a non-empty token. -/
def methodOk (m : String) : Bool :=
  !(strBytes m).isEmpty && (strBytes m).all isTokenByte

/-- `HeaderName::from_bytes`: a non-empty token, normalised to lowercase. -/
def headerNameParse (n : List Nat) : Option (List Nat) :=
  if !n.isEmpty && n.all isTokenByte then some (n.map lowerByte) else none

/-- `HeaderValue::from_bytes` validity: visible bytes, obs-text, or tab. -/
def headerValueOk (v : List Nat) : Bool :=
  v.all fun b => b == 9 || (32 ≤ b && b != 127)

/-- `Uri::try_from` validity, abstracted to a byte-level check (visible
ASCII); the bridge only propagates the parse failure as `InvalidUri`. -/
def uriOk (s : String) : Bool := (strBytes s).all fun b => 33 ≤ b && b ≤ 126

/-- `http::header::HOST` as lowercase bytes. -/
def hostBytes : List Nat := strBytes "host"

/-- `http::header::CONTENT_LENGTH` as lowercase bytes. -/
def contentLengthBytes : List Nat := strBytes "content-length"

/-- The produced HTTP/2 request: method, URI, header list in insertion
order (names normalised lowercase), body bytes. -/
structure H2Request where
  method : String
  uri : String
  headers : List (List Nat × List Nat)
  body : List Nat
  deriving Repr, DecidableEq

/-- The header loop of `build_h2_request`: skip pseudo-headers, parse the
name (error on failure), note a `Host` header, skip `Content-Length`,
validate the value (error on failure), keep the rest in order.  Returns the
kept headers and the `saw_host` flag. -/
def processHeaders : List (List Nat × List Nat) →
    Except BridgeError (List (List Nat × List Nat) × Bool)
  | [] => .ok ([], false)
  | (name, value) :: rest =>
    if name.head? = some 58 then processHeaders rest
    else
      match headerNameParse name with
      | none => .error .InvalidHeader
      | some lname =>
        if lname = contentLengthBytes then
          match processHeaders rest with
          | .error e => .error e
          | .ok r => .ok (r.1, r.2 || lname == hostBytes)
        else
          if headerValueOk value then
            match processHeaders rest with
            | .error e => .error e
            | .ok r => .ok ((lname, value) :: r.1, r.2 || lname == hostBytes)
          else .error .InvalidHeader

/-- `build_h2_request` from `crates/bridge/src/h3_to_h2.rs`. -/
def build_h2_request (backend method path : String)
    (headers : List (List Nat × List Nat)) (body : List Nat) :
    Except BridgeError H2Request :=
  if !methodOk method then .error .InvalidMethod
  else
    let request_path := if path = "" then "/" else path
    let uri := "http://" ++ backend ++ request_path
    if !uriOk uri then .error .InvalidUri
    else
      match processHeaders headers with
      | .error e => .error e
      | .ok (hdrs, saw_host) =>
        let hdrs := if saw_host then hdrs
          else hdrs ++ [(hostBytes, strBytes backend)]
        let hdrs := if body.isEmpty then hdrs
          else hdrs ++ [(contentLengthBytes, decimalBytes body.length)]
        .ok ⟨method, uri, hdrs, body⟩

/-- `is_hop_header` from `crates/edge/src/quic_listener.rs`. -/
def is_hop_header (name : String) : Bool :=
  name == "connection" || name == "keep-alive" || name == "proxy-connection"
    || name == "transfer-encoding" || name == "upgrade"

/-- The HTTP/3 response header list built by
`QUICListener::send_backend_response`: a `:status` pseudo-header, every
upstream response header except hop-by-hop ones and `Content-Length`
(`HeaderMap` iteration yields lowercase names), then a fresh
`content-length` of the collected body. -/
def responseHeaders (status : Nat) (headers : List (String × List Nat))
    (bodyLen : Nat) : List (String × List Nat) :=
  (":status", decimalBytes status) ::
    headers.filter (fun nv => !(is_hop_header nv.1 || nv.1 == "content-length"))
      ++ [("content-length", decimalBytes bodyLen)]

/-! ## Claim C8: shape of the produced HTTP/2 request -/

/-- Whether a header name is a pseudo-header (starts with `':'`). -/
def isPseudo (n : List Nat) : Bool := n.head? == some 58

/-- The input headers `build_h2_request` copies: non-pseudo and not
`Content-Length`, names normalised to lowercase, order preserved. -/
def copiedHeaders (headers : List (List Nat × List Nat)) :
    List (List Nat × List Nat) :=
  headers.filterMap fun nv =>
    if isPseudo nv.1 then none
    else
      match headerNameParse nv.1 with
      | none => none
      | some ln => if ln = contentLengthBytes then none else some (ln, nv.2)

/-- Whether the input headers contain a `Host` header (after
normalisation). -/
def sawHost (headers : List (List Nat × List Nat)) : Bool :=
  headers.any fun nv =>
    !isPseudo nv.1 && (headerNameParse nv.1 == some hostBytes)

/-! ## Request dispatch (`QUICListener::handle_request_finish`)

The upstream-pool interactions of the dispatch (length, pick, address
lookup, `forward_request`) are supplied as oracles: the claims settled here
are about the response selection and the metrics increments, which depend
only on which branch of `handle_request_finish` runs. -/

/-- The route matcher an upstream carries (`upstream.route` as read by
`find_upstream_for_request`). -/
structure Route where
  host : Option String
  path_prefix : Option String
  deriving Repr, DecidableEq

/-- The part of `spooky_config::config::Upstream` the router reads. -/
structure Upstream where
  route : Route
  deriving Repr, DecidableEq

/-- `str::starts_with`, modelled on the UTF-8 byte lists (structurally
recursive, so it evaluates by kernel reduction). -/
def strStartsWith (s p : String) : Bool :=
  (strBytes p).isPrefixOf (strBytes s)

/-- One iteration of the routing loop in `find_upstream_for_request`:
host equality (no constraint matches anything; a constraint with no request
host fails), prefix match (a prefix miss skips the entry entirely), and the
strictly-longer-prefix tie-break. -/
def routeStep (path : String) (host : Option String)
    (best : Option (String × Nat)) (entry : String × Upstream) :
    Option (String × Nat) :=
  let has_host_match : Bool :=
    match entry.2.route.host, host with
    | some rh, some h => rh == h
    | none, _ => true
    | some _, none => false
  match entry.2.route.path_prefix with
  | some p =>
    if strStartsWith path p then
      let better : Bool :=
        match best with
        | none => true
        | some b => decide (b.2 < p.length)
      if has_host_match && better then some (entry.1, p.length) else best
    else best
  | none =>
    let better : Bool :=
      match best with
      | none => true
      | some b => decide (b.2 < 0)
    if has_host_match && better then some (entry.1, 0) else best

/-- `find_upstream_for_request` from `crates/edge/src/quic_listener.rs`,
over the upstream map in iteration order. -/
def find_upstream_for_request (upstreams : List (String × Upstream))
    (path : String) (host : Option String) : Option String :=
  (upstreams.foldl (routeStep path host) none).map Prod.fst

/-- Whether an upstream's route matches the request (host constraint
satisfied and, if a path prefix is configured, the path starts with it). -/
def routeMatches (entry : String × Upstream) (path : String)
    (host : Option String) : Bool :=
  (match entry.2.route.host, host with
   | some rh, some h => rh == h
   | none, _ => true
   | some _, none => false) &&
  (match entry.2.route.path_prefix with
   | some p => strStartsWith path p
   | none => true)

/-- The outcome of `forward_request`, as the dispatch observes it. -/
inductive ForwardResult where
  | ok (status : Nat) : ForwardResult
  | bridgeErr : ForwardResult
  | transportErr : ForwardResult
  | timeout : ForwardResult
  | tlsErr : ForwardResult
  deriving Repr, DecidableEq

/-- Per-request increments of the `Metrics` counters. -/
structure MetricsDelta where
  total : Nat
  success : Nat
  failure : Nat
  timeouts : Nat
  backend_errors : Nat
  deriving Repr, DecidableEq

/-- No increments. -/
def MetricsDelta.zero : MetricsDelta := ⟨0, 0, 0, 0, 0⟩

/-- The `metrics.inc_total()` done on an HTTP/3 `Headers` event. -/
def headersEventDelta : MetricsDelta := ⟨1, 0, 0, 0, 0⟩

/-- What `handle_request_finish` does on the originating stream. -/
inductive DispatchOutcome where
  | respond (status : Nat) : DispatchOutcome
  | respondBackend (status : Nat) : DispatchOutcome
  | h3Error : DispatchOutcome
  deriving Repr, DecidableEq

/-- The inputs `handle_request_finish` branches on. -/
structure DispatchInput where
  method : String
  path : String
  authority : Option String
  upstreams : List (String × Upstream)
  upstreamLen : Nat
  pickResult : Option Nat
  addrResult : Option String
  forward : ForwardResult
  deriving Repr, DecidableEq

/-- The response action and metrics increments of
`QUICListener::handle_request_finish`.  The `upstream_pools.get` lookup
cannot miss (the pools map is built from the same keys as the upstream map)
and is not modelled.  400 on empty method/path; `quiche::h3::Error`
`InternalError` (no response) when no route matches; 503 when the pool is
empty, no backend is picked, or the address lookup fails; then per
`forward_request` outcome: success, bridge error (400), transport error
(502), timeout (503), TLS error (500). -/
def handle_request_finish (inp : DispatchInput) :
    DispatchOutcome × MetricsDelta :=
  if inp.method = "" ∨ inp.path = "" then (.respond 400, .zero)
  else
    match find_upstream_for_request inp.upstreams inp.path inp.authority with
    | none => (.h3Error, .zero)
    | some _ =>
      if inp.upstreamLen = 0 then (.respond 503, .zero)
      else
        match inp.pickResult with
        | none => (.respond 503, .zero)
        | some _ =>
          match inp.addrResult with
          | none => (.respond 503, .zero)
          | some _ =>
            match inp.forward with
            | .ok status => (.respondBackend status, ⟨0, 1, 0, 0, 0⟩)
            | .bridgeErr => (.respond 400, ⟨0, 0, 1, 0, 0⟩)
            | .transportErr => (.respond 502, ⟨0, 0, 1, 0, 1⟩)
            | .timeout => (.respond 503, ⟨0, 0, 1, 1, 0⟩)
            | .tlsErr => (.respond 500, ⟨0, 0, 1, 0, 0⟩)

/-- Whether the dispatch reaches `forward_request`. -/
def reachesForward (inp : DispatchInput) : Bool :=
  !(inp.method == "" || inp.path == "") &&
  (find_upstream_for_request inp.upstreams inp.path inp.authority).isSome &&
  !(inp.upstreamLen == 0) && inp.pickResult.isSome && inp.addrResult.isSome

/-! ## Claim C9: datagram connection resolution (`QUICListener::poll`)

The connection table is a list of (stored SCID bytes, peer id); a peer id
stands in for the `SocketAddr`.  The list order models the `HashMap`
iteration order of the `find`-style scans. -/

/-- The packet header types the resolution branches on. -/
inductive PacketType where
  | initial : PacketType
  | short : PacketType
  | other : PacketType
  deriving Repr, DecidableEq

/-- One stored connection: its key (the server-chosen SCID) and its peer. -/
structure ConnEntry where
  cid : List Nat
  peer : Nat
  deriving Repr, DecidableEq

/-- How the listener resolves a datagram. -/
inductive Resolution where
  | existing (cid : List Nat) : Resolution
  | created : Resolution
  | dropped : Resolution
  deriving Repr, DecidableEq

/-- `QUICListener::take_or_create_connection`, resolution decision only:
exact DCID match; then, for Short packets with DCID longer than 8 bytes, a
prefix match over the stored SCIDs; then drop while draining; then accept
only Initial packets. -/
def take_or_create_connection (table : List ConnEntry) (dcid : List Nat)
    (ty : PacketType) (draining : Bool) : Resolution :=
  if (table.find? (fun e => e.cid == dcid)).isSome then .existing dcid
  else
    match (if ty == .short && decide (8 < dcid.length) then
        table.find? (fun e => e.cid.isPrefixOf dcid) else none) with
    | some e => .existing e.cid
    | none =>
      if draining then .dropped
      else if ty == .initial then .created
      else .dropped

/-- The resolution order of `QUICListener::poll`: exact DCID lookup, then
the same-peer fallback, and only then `take_or_create_connection` (which
redoes the exact lookup, then tries the prefix match). -/
def poll_resolve (table : List ConnEntry) (dcid : List Nat)
    (ty : PacketType) (peer : Nat) (draining : Bool) : Resolution :=
  if (table.find? (fun e => e.cid == dcid)).isSome then .existing dcid
  else
    match table.find? (fun e => e.peer == peer) with
    | some e => .existing e.cid
    | none => take_or_create_connection table dcid ty draining

/-- The cascade the claim describes: exact match, then prefix match, and
only if both miss the peer-address fallback. -/
def claimed_resolve (table : List ConnEntry) (dcid : List Nat)
    (ty : PacketType) (peer : Nat) (draining : Bool) : Resolution :=
  if (table.find? (fun e => e.cid == dcid)).isSome then .existing dcid
  else
    match (if ty == .short && decide (8 < dcid.length) then
        table.find? (fun e => e.cid.isPrefixOf dcid) else none) with
    | some e => .existing e.cid
    | none =>
      match table.find? (fun e => e.peer == peer) with
      | some e => .existing e.cid
      | none =>
        if draining then .dropped
        else if ty == .initial then .created
        else .dropped

/-- The cascade the code actually implements: exact match, then the
same-peer fallback, then the prefix match, then create/drop. -/
def amended_resolve (table : List ConnEntry) (dcid : List Nat)
    (ty : PacketType) (peer : Nat) (draining : Bool) : Resolution :=
  if (table.find? (fun e => e.cid == dcid)).isSome then .existing dcid
  else
    match table.find? (fun e => e.peer == peer) with
    | some e => .existing e.cid
    | none =>
      match (if ty == .short && decide (8 < dcid.length) then
          table.find? (fun e => e.cid.isPrefixOf dcid) else none) with
      | some e => .existing e.cid
      | none =>
        if draining then .dropped
        else if ty == .initial then .created
        else .dropped

/-! ## Theorems -/

theorem filterMap_enumFrom_mem {l : List BackendState} {n i : Nat} :
    i ∈ ((l.enumFrom n).filterMap fun ib =>
        if ib.2.is_healthy then some ib.1 else none) ↔
      n ≤ i ∧ (l.get? (i - n)).elim False (fun b => b.is_healthy = true) := by
  induction l generalizing n with
  | nil => simp
  | cons hd tl ih =>
    simp only [List.enumFrom_cons, List.filterMap_cons]
    by_cases hh : hd.is_healthy
    · simp only [hh, if_pos, List.mem_cons, ih]
      constructor
      · rintro (rfl | ⟨h1, h2⟩)
        · exact ⟨Nat.le_refl _, by simp [hh]⟩
        · refine ⟨Nat.le_of_succ_le h1, ?_⟩
          have hne : i - n = (i - (n + 1)) + 1 := by omega
          rw [hne]; simpa using h2
      · rintro ⟨h1, h2⟩
        rcases Nat.eq_or_lt_of_le h1 with rfl | hlt
        · exact Or.inl rfl
        · refine Or.inr ⟨hlt, ?_⟩
          have hne : i - n = (i - (n + 1)) + 1 := by omega
          rw [hne] at h2; simpa using h2
    · simp only [hh, if_neg, Bool.false_eq_true, not_false_iff, ih]
      constructor
      · rintro ⟨h1, h2⟩
        refine ⟨Nat.le_of_succ_le h1, ?_⟩
        have hne : i - n = (i - (n + 1)) + 1 := by omega
        rw [hne]; simpa using h2
      · rintro ⟨h1, h2⟩
        rcases Nat.eq_or_lt_of_le h1 with rfl | hlt
        · simp only [Nat.sub_self, List.get?_cons_zero] at h2
          exact absurd h2 (by simp [hh])
        · refine ⟨hlt, ?_⟩
          have hne : i - n = (i - (n + 1)) + 1 := by omega
          rw [hne] at h2; simpa using h2

/-- Membership in `healthy_indices` is exactly health of the stored backend. -/
theorem mem_healthy_indices {p : BackendPool} {i : Nat} :
    i ∈ p.healthy_indices ↔ healthyAt p i = true := by
  unfold BackendPool.healthy_indices healthyAt
  rw [List.enum_eq_enumFrom, filterMap_enumFrom_mem]
  simp only [Nat.zero_le, true_and, Nat.sub_zero]
  cases h : p.backends.get? i with
  | none => simp
  | some b => simp

theorem filterMap_if_sublist_map_fst {α : Type} (l : List (Nat × α))
    (q : Nat × α → Bool) :
    (l.filterMap fun ib => if q ib then some ib.1 else none).Sublist
      (l.map Prod.fst) := by
  induction l with
  | nil => simp
  | cons hd tl ih =>
    simp only [List.filterMap_cons, List.map_cons]
    by_cases hq : q hd
    · rw [if_pos hq]
      exact ih.cons₂ _
    · rw [if_neg hq]
      exact ih.cons _

theorem healthy_indices_sublist (p : BackendPool) :
    p.healthy_indices.Sublist (List.range p.backends.length) := by
  unfold BackendPool.healthy_indices
  have h1 := filterMap_if_sublist_map_fst p.backends.enum
    (fun ib => ib.2.is_healthy)
  rw [List.enum_map_fst] at h1
  exact h1

theorem healthy_indices_nodup (p : BackendPool) : p.healthy_indices.Nodup :=
  (healthy_indices_sublist p).nodup (List.nodup_range _)

theorem healthy_indices_lt {p : BackendPool} {i : Nat}
    (h : i ∈ p.healthy_indices) : i < p.backends.length := by
  have := (healthy_indices_sublist p).subset h
  exact List.mem_range.mp this

/-! ## Claim C2: `pick` returns `None` iff no healthy backend -/

theorem ringInsert_ne_nil (k v : Nat) (l : List (Nat × Nat)) :
    ringInsert k v l ≠ [] := by
  match l with
  | [] => simp [ringInsert]
  | (k', v') :: rest =>
    unfold ringInsert
    split
    · simp
    · split <;> simp

theorem foldl_ringInsert_ne_nil (f : Nat → Nat) (v : Nat) (l : List Nat)
    (init : List (Nat × Nat)) (h : init ≠ [] ∨ l ≠ []) :
    l.foldl (fun ring x => ringInsert (f x) v ring) init ≠ [] := by
  induction l generalizing init with
  | nil =>
    rcases h with h | h
    · simpa using h
    · exact absurd rfl h
  | cons x xs ih =>
    rw [List.foldl_cons]
    exact ih _ (Or.inl (ringInsert_ne_nil _ _ _))

theorem virtualNodes_pos {replicas weight : Nat} (h : 1 ≤ replicas) :
    1 ≤ virtualNodes replicas weight := by
  unfold virtualNodes satMul32
  have h1 : 1 ≤ replicas * max weight 1 :=
    Nat.one_le_iff_ne_zero.mpr (Nat.mul_ne_zero
      (Nat.one_le_iff_ne_zero.mp h)
      (Nat.one_le_iff_ne_zero.mp (Nat.le_max_right _ _)))
  exact le_min h1 (by unfold u32max; omega)

theorem build_ring_step_ne_nil (pool : BackendPool) (replicas : Nat)
    (ring : List (Nat × Nat)) (idx : Nat) (h : ring ≠ []) :
    (match pool.backend idx with
      | none => ring
      | some b =>
        (List.range (virtualNodes replicas b.backend.weight)).foldl
          (fun ring replica =>
            ringInsert (hash64 (nodeKey b.address replica)) idx ring)
          ring) ≠ [] := by
  cases hb : pool.backend idx with
  | none => simpa using h
  | some b =>
    simpa using foldl_ringInsert_ne_nil _ _ _ _ (Or.inl h)

theorem build_ring_ne_nil (pool : BackendPool) (indices : List Nat)
    (replicas : Nat) (hrep : 1 ≤ replicas)
    (hmem : ∀ i ∈ indices, (pool.backend i).isSome)
    (hne : indices ≠ []) :
    build_ring pool indices replicas ≠ [] := by
  unfold build_ring
  suffices h : ∀ (l : List Nat) (init : List (Nat × Nat)),
      (∀ i ∈ l, (pool.backend i).isSome) →
      (init ≠ [] ∨ l ≠ []) →
      l.foldl
        (fun ring idx =>
          match pool.backend idx with
          | none => ring
          | some b =>
            (List.range (virtualNodes replicas b.backend.weight)).foldl
              (fun ring replica =>
                ringInsert (hash64 (nodeKey b.address replica)) idx ring)
              ring)
        init ≠ [] by
    exact h indices [] hmem (Or.inr hne)
  intro l
  induction l with
  | nil =>
    intro init _ h
    rcases h with h | h
    · simpa using h
    · exact absurd rfl h
  | cons i is ih =>
    intro init hm h
    rw [List.foldl_cons]
    rcases h with h | _
    · exact ih _ (fun j hj => hm j (List.mem_cons_of_mem _ hj))
        (Or.inl (build_ring_step_ne_nil pool replicas init i h))
    · have hi : (pool.backend i).isSome := hm i (List.mem_cons_self i is)
      cases hb : pool.backend i with
      | none => rw [hb] at hi; exact absurd hi (by simp)
      | some b =>
        have hrange : List.range (virtualNodes replicas b.backend.weight) ≠ [] := by
          have := @virtualNodes_pos replicas b.backend.weight hrep
          simp only [ne_eq, List.range_eq_nil]
          omega
        refine ih _ (fun j hj => hm j (List.mem_cons_of_mem _ hj)) (Or.inl ?_)
        simp only [hb]
        exact foldl_ringInsert_ne_nil _ _ _ _ (Or.inr hrange)

theorem ringLookup_isSome {h : Nat} {ring : List (Nat × Nat)}
    (hne : ring ≠ []) : (ringLookup h ring).isSome := by
  unfold ringLookup
  cases hf : ring.find? (fun e => h ≤ e.1) with
  | some e => simp
  | none =>
    cases ring with
    | nil => exact absurd rfl hne
    | cons e rest => simp

theorem healthy_indices_backend_isSome {pool : BackendPool} {i : Nat}
    (h : i ∈ pool.healthy_indices) : (pool.backend i).isSome := by
  have hlt := healthy_indices_lt h
  unfold BackendPool.backend
  rw [List.get?_eq_get hlt]
  simp

theorem healthy_indices_ne_nil_not_empty {pool : BackendPool}
    (h : pool.healthy_indices ≠ []) : pool.is_empty = false := by
  rcases List.exists_mem_of_ne_nil _ h with ⟨i, hi⟩
  have := healthy_indices_lt hi
  unfold BackendPool.is_empty
  rcases hb : pool.backends with _ | _
  · rw [hb] at this; simp at this
  · simp

theorem roundRobin_pick_none_iff (rr : RoundRobin) (pool : BackendPool) :
    (rr.pick pool).1 = none ↔ pool.healthy_indices = [] := by
  unfold RoundRobin.pick
  by_cases h : pool.healthy_indices = []
  · simp [h]
  · have hie : pool.healthy_indices.isEmpty = false := by
      simpa [List.isEmpty_iff] using h
    simp [hie, h]

theorem randomPick_none_iff (rng : Nat) (pool : BackendPool) :
    randomPick rng pool = none ↔ pool.healthy_indices = [] := by
  unfold randomPick
  by_cases h : pool.healthy_indices = []
  · simp [h]
  · have hie : pool.healthy_indices.isEmpty = false := by
      simpa [List.isEmpty_iff] using h
    simp [hie, h]

theorem consistentHash_pick_none_iff (ch : ConsistentHash)
    (hch : 1 ≤ ch.replicas) (key : List Nat) (pool : BackendPool) :
    ch.pick key pool = none ↔ pool.healthy_indices = [] := by
  unfold ConsistentHash.pick
  by_cases h : pool.healthy_indices = []
  · by_cases hpe : pool.is_empty <;> simp [hpe, h]
  · have hpe := healthy_indices_ne_nil_not_empty h
    have hie : pool.healthy_indices.isEmpty = false := by
      simpa [List.isEmpty_iff] using h
    simp only [hpe, Bool.false_eq_true, if_neg, not_false_iff, hie]
    have hring := build_ring_ne_nil pool pool.healthy_indices ch.replicas hch
      (fun i hi => healthy_indices_backend_isSome hi) h
    have hsome := @ringLookup_isSome (hash64 key) _ hring
    constructor
    · intro hnone
      rw [hnone] at hsome
      exact absurd hsome (by simp)
    · intro hempty
      exact absurd hempty h

/-- **C2**: for every pool and key, each of the three strategies' `pick`
(round-robin, random with any RNG draw, consistent-hash with the constructor
invariant `replicas ≥ 1`) and the `LoadBalancing::pick` dispatcher returns
`None` if and only if `pool.healthy_indices()` is empty; in particular, for a
pool with at least one healthy backend, `pick` never returns `None`. -/
theorem c2_pick_none_iff_no_healthy (pool : BackendPool) (key : List Nat)
    (rng : Nat) (rr : RoundRobin) (ch : ConsistentHash)
    (hch : 1 ≤ ch.replicas) :
    ((rr.pick pool).1 = none ↔ pool.healthy_indices = []) ∧
    (randomPick rng pool = none ↔ pool.healthy_indices = []) ∧
    (ch.pick key pool = none ↔ pool.healthy_indices = []) ∧
    (∀ lb : LoadBalancing,
      (∀ ch', lb = .consistentHash ch' → 1 ≤ ch'.replicas) →
      ((lb.pick key pool rng).1 = none ↔ pool.healthy_indices = [])) := by
  refine ⟨roundRobin_pick_none_iff rr pool, randomPick_none_iff rng pool,
    consistentHash_pick_none_iff ch hch key pool, ?_⟩
  intro lb hlb
  cases lb with
  | roundRobin rr' =>
    simpa [LoadBalancing.pick] using roundRobin_pick_none_iff rr' pool
  | consistentHash ch' =>
    simpa [LoadBalancing.pick] using
      consistentHash_pick_none_iff ch' (hlb ch' rfl) key pool
  | random =>
    simpa [LoadBalancing.pick] using randomPick_none_iff rng pool

/-- Witness for C2 at a one-backend pool, key `"k"`, RNG draw 5, a fresh
round-robin cursor and the default consistent-hash constructor. -/
theorem c2_pick_none_iff_no_healthy_witness :
    1 ≤ (ConsistentHash.new DEFAULT_REPLICAS).replicas ∧
    (((RoundRobin.new.pick (BackendPool.new
        [⟨"a", strBytes "10.0.0.1:1", 1, ⟨"/health", 1000, 1000, 3, 1, 500⟩⟩])).1 = none ↔
      (BackendPool.new
        [⟨"a", strBytes "10.0.0.1:1", 1, ⟨"/health", 1000, 1000, 3, 1, 500⟩⟩]).healthy_indices = []) ∧
     (randomPick 5 (BackendPool.new
        [⟨"a", strBytes "10.0.0.1:1", 1, ⟨"/health", 1000, 1000, 3, 1, 500⟩⟩]) = none ↔
      (BackendPool.new
        [⟨"a", strBytes "10.0.0.1:1", 1, ⟨"/health", 1000, 1000, 3, 1, 500⟩⟩]).healthy_indices = []) ∧
     ((ConsistentHash.new DEFAULT_REPLICAS).pick (strBytes "k") (BackendPool.new
        [⟨"a", strBytes "10.0.0.1:1", 1, ⟨"/health", 1000, 1000, 3, 1, 500⟩⟩]) = none ↔
      (BackendPool.new
        [⟨"a", strBytes "10.0.0.1:1", 1, ⟨"/health", 1000, 1000, 3, 1, 500⟩⟩]).healthy_indices = []) ∧
     (∀ lb : LoadBalancing,
        (∀ ch', lb = .consistentHash ch' → 1 ≤ ch'.replicas) →
        ((lb.pick (strBytes "k") (BackendPool.new
          [⟨"a", strBytes "10.0.0.1:1", 1, ⟨"/health", 1000, 1000, 3, 1, 500⟩⟩]) 5).1 = none ↔
         (BackendPool.new
          [⟨"a", strBytes "10.0.0.1:1", 1, ⟨"/health", 1000, 1000, 3, 1, 500⟩⟩]).healthy_indices = []))) :=
  ⟨by decide,
   c2_pick_none_iff_no_healthy _ (strBytes "k") 5 RoundRobin.new
     (ConsistentHash.new DEFAULT_REPLICAS) (by decide)⟩

/-- **C7 counterexample**: with the healthy list `[0, 1, 2]` and starting
cursor `2^64 - 1`, three successive picks return index 0 twice and never
index 2 — the cursor wraps to 0 after the first pick, so `|H|` successive
picks do not return each index of `H` exactly once for every starting cursor. -/
theorem c7_counterexample :
    pool3.healthy_indices = [0, 1, 2] ∧
    rrRun pool3 ⟨u64size - 1⟩ 3 = [some 0, some 0, some 1] := by
  constructor
  · rfl
  · rfl

theorem count_some_map_some (l : List Nat) (x : Nat) :
    (l.map some).count (some x) = l.count x := by
  induction l with
  | nil => rfl
  | cons a l ih => simp [List.count_cons, ih]

theorem rrRun_formula (pool : BackendPool) (hne : pool.healthy_indices ≠ []) :
    ∀ (k c : Nat), c + k ≤ u64size →
      rrRun pool ⟨c⟩ k = (List.range k).map
        (fun i => some (pool.healthy_indices.getD
          ((c + i) % pool.healthy_indices.length) 0)) := by
  have hie : pool.healthy_indices.isEmpty = false := by
    simpa [List.isEmpty_iff] using hne
  intro k
  induction k with
  | zero => intro c _; rfl
  | succ k ih =>
    intro c hc
    have hpick : (RoundRobin.pick ⟨c⟩ pool) =
        (some (pool.healthy_indices.getD
          (c % pool.healthy_indices.length) 0), ⟨(c + 1) % u64size⟩) := by
      simp [RoundRobin.pick, hie]
    show (RoundRobin.pick ⟨c⟩ pool).1 ::
        rrRun pool (RoundRobin.pick ⟨c⟩ pool).2 k = _
    rw [hpick]
    rcases Nat.eq_zero_or_pos k with rfl | hk
    · simp [rrRun, List.range_succ]
    · have hmod : (c + 1) % u64size = c + 1 := Nat.mod_eq_of_lt (by omega)
      rw [hmod, ih (c + 1) (by omega)]
      rw [List.range_succ_eq_map, List.map_cons, List.map_map]
      have harg : (fun i => some (pool.healthy_indices.getD
            ((c + i) % pool.healthy_indices.length) 0)) ∘ Nat.succ =
          fun i => some (pool.healthy_indices.getD
            ((c + 1 + i) % pool.healthy_indices.length) 0) := by
        funext i
        have : c + Nat.succ i = c + 1 + i := by omega
        simp only [Function.comp]
        rw [this]
      rw [harg]
      simp

/-- **C7 (amended)**: for every pool whose healthy list `H` is non-empty and
every starting cursor `c` whose window does not cross the `u64` wraparound
(`c + |H| ≤ 2^64`), the `|H|` successive `RoundRobin::pick` calls return each
index of `H` exactly once and nothing else. -/
theorem c7_round_robin_cycles (pool : BackendPool) (c : Nat)
    (hne : pool.healthy_indices ≠ [])
    (hnw : c + pool.healthy_indices.length ≤ u64size) (x : Nat) :
    (rrRun pool ⟨c⟩ pool.healthy_indices.length).count (some x) =
      if x ∈ pool.healthy_indices then 1 else 0 := by
  set H := pool.healthy_indices with hH
  have hlen : 0 < H.length := List.length_pos.mpr hne
  have hform := rrRun_formula pool hne H.length c hnw
  have hrot : (List.range H.length).map
      (fun i => some (H.getD ((c + i) % H.length) 0)) =
      (H.rotate (c % H.length)).map some := by
    apply List.ext_get?
    intro n
    rw [List.get?_map, List.get?_map]
    by_cases hn : n < H.length
    · rw [List.get?_range hn, List.get?_rotate hn]
      have hidx : (n + c % H.length) % H.length = (c + n) % H.length := by
        rw [Nat.add_mod c n, Nat.mod_eq_of_lt hn,
          Nat.add_comm (c % H.length) n]
      rw [hidx]
      have hmod : (c + n) % H.length < H.length := Nat.mod_lt _ hlen
      rw [List.get?_eq_get hmod]
      rw [Option.map_some', Option.map_some',
        List.getD_eq_getElem H 0 hmod]
      simp [List.get_eq_getElem]
    · have h1 : (List.range H.length).get? n = none := by
        rw [List.get?_eq_none]
        simpa using Nat.le_of_not_lt hn
      have h2 : (H.rotate (c % H.length)).get? n = none := by
        rw [List.get?_eq_none, List.length_rotate]
        exact Nat.le_of_not_lt hn
      rw [h1, h2]
      rfl
  rw [hform, hrot]
  rw [count_some_map_some (H.rotate (c % H.length)) x]
  rw [(List.rotate_perm H (c % H.length)).count_eq]
  by_cases hx : x ∈ H
  · rw [if_pos hx]
    exact List.count_eq_one_of_mem (healthy_indices_nodup pool) hx
  · rw [if_neg hx]
    exact List.count_eq_zero_of_not_mem hx

/-- Witness for the amended C7 at `pool3`, cursor 7. -/
theorem c7_round_robin_cycles_witness :
    pool3.healthy_indices ≠ [] ∧
    7 + pool3.healthy_indices.length ≤ u64size ∧
    (rrRun pool3 ⟨7⟩ pool3.healthy_indices.length).count (some 1) =
      if 1 ∈ pool3.healthy_indices then 1 else 0 :=
  ⟨by decide, by decide, c7_round_robin_cycles pool3 7 (by decide) (by decide) 1⟩

/-- **C6 counterexample**: the claim's virtual-node count
`replicas × max(weight,1)` disagrees with the code's
`replicas.saturating_mul(weight)` at the default 64 replicas and weight
`2^26 + 1`: the product `4294967360` exceeds `u32::MAX` and saturates. -/
theorem c6_counterexample :
    virtualNodes DEFAULT_REPLICAS 67108865 ≠
      DEFAULT_REPLICAS * max 67108865 1 := by
  decide

/-- `build_ring` is the left fold of map insertion over the flat entry list. -/
theorem build_ring_eq_foldl_entries (pool : BackendPool) (indices : List Nat)
    (replicas : Nat) :
    build_ring pool indices replicas =
      (ringEntries pool indices replicas).foldl
        (fun ring e => ringInsert e.1 e.2 ring) [] := by
  unfold build_ring ringEntries
  suffices h : ∀ (l : List Nat) (init : List (Nat × Nat)),
      l.foldl
        (fun ring idx =>
          match pool.backend idx with
          | none => ring
          | some b =>
            (List.range (virtualNodes replicas b.backend.weight)).foldl
              (fun ring replica =>
                ringInsert (hash64 (nodeKey b.address replica)) idx ring)
              ring)
        init =
      (l.flatMap (entriesFor pool replicas)).foldl
        (fun ring e => ringInsert e.1 e.2 ring) init by
    exact h indices []
  intro l
  induction l with
  | nil => intro init; rfl
  | cons i is ih =>
    intro init
    rw [List.foldl_cons, List.flatMap_cons, List.foldl_append, ih]
    congr 1
    unfold entriesFor
    cases hb : pool.backend i with
    | none => rfl
    | some b => rw [List.foldl_map]

theorem assocOf_cons (e : Nat × Nat) (l : List (Nat × Nat)) (k : Nat) :
    assocOf (e :: l) k = if e.1 = k then some e.2 else assocOf l k := by
  unfold assocOf
  by_cases h : e.1 = k <;> simp [List.find?_cons, h]

theorem assocOf_ringInsert (k v : Nat) (l : List (Nat × Nat)) (k' : Nat) :
    assocOf (ringInsert k v l) k' =
      if k' = k then some v else assocOf l k' := by
  induction l with
  | nil =>
    show assocOf [(k, v)] k' = if k' = k then some v else assocOf [] k'
    rw [assocOf_cons]
    by_cases h : k' = k
    · rw [if_pos (show (k, v).1 = k' from h.symm), if_pos h]
    · rw [if_neg (show ¬(k, v).1 = k' from fun hh => h hh.symm), if_neg h]
  | cons a rest ih =>
    unfold ringInsert
    by_cases h1 : k < a.1
    · rw [if_pos h1, assocOf_cons]
      by_cases h : k' = k
      · rw [if_pos h, if_pos (by omega : k = k')]
      · rw [if_neg h, if_neg (by omega : ¬k = k')]
    · rw [if_neg h1]
      by_cases h2 : k = a.1
      · rw [if_pos h2, assocOf_cons]
        by_cases h : k' = k
        · rw [if_pos (by omega : k = k'), if_pos h]
        · rw [if_neg (by omega : ¬k = k'), if_neg h, assocOf_cons,
            if_neg (by omega : ¬a.1 = k')]
      · rw [if_neg h2, assocOf_cons, ih, assocOf_cons]
        by_cases h : a.1 = k'
        · rw [if_pos h, if_neg (by omega : ¬k' = k), if_pos h]
        · rw [if_neg h]
          by_cases h' : k' = k
          · rw [if_pos h', if_pos h']
          · rw [if_neg h', if_neg h', if_neg h]

theorem mem_keys_ringInsert (k v k' : Nat) (l : List (Nat × Nat)) :
    k' ∈ (ringInsert k v l).map Prod.fst ↔
      k' = k ∨ k' ∈ l.map Prod.fst := by
  induction l with
  | nil => simp [ringInsert]
  | cons a rest ih =>
    unfold ringInsert
    by_cases h1 : k < a.1
    · rw [if_pos h1]
      simp [or_assoc]
    · rw [if_neg h1]
      by_cases h2 : k = a.1
      · rw [if_pos h2]
        simp only [List.map_cons, List.mem_cons, ih]
        constructor
        · rintro (h | h) <;> simp [h]
        · rintro (h | h | h) <;> simp [h, h2.symm]
      · rw [if_neg h2]
        simp only [List.map_cons, List.mem_cons, ih]
        tauto

theorem pairwise_ringInsert (k v : Nat) (l : List (Nat × Nat))
    (h : l.Pairwise (fun a b => a.1 < b.1)) :
    (ringInsert k v l).Pairwise (fun a b => a.1 < b.1) := by
  induction l with
  | nil => simp [ringInsert]
  | cons a rest ih =>
    rw [List.pairwise_cons] at h
    obtain ⟨ha, hrest⟩ := h
    unfold ringInsert
    by_cases h1 : k < a.1
    · rw [if_pos h1]
      refine List.Pairwise.cons ?_ (List.Pairwise.cons ha hrest)
      intro b hb
      rcases List.mem_cons.mp hb with rfl | hb
      · exact h1
      · exact Nat.lt_trans h1 (ha b hb)
    · rw [if_neg h1]
      by_cases h2 : k = a.1
      · rw [if_pos h2]
        refine List.Pairwise.cons ?_ hrest
        intro b hb
        rw [h2]
        exact ha b hb
      · rw [if_neg h2]
        refine List.Pairwise.cons ?_ (ih hrest)
        intro b hb
        have hk : b.1 ∈ (ringInsert k v rest).map Prod.fst :=
          List.mem_map_of_mem Prod.fst hb
        rcases (mem_keys_ringInsert k v b.1 rest).mp hk with rfl | hbk
        · omega
        · rcases List.mem_map.mp hbk with ⟨c, hc, hck⟩
          rw [← hck]
          exact ha c hc

theorem minimum?_eq_none_iff_nil (l : List Nat) :
    l.minimum? = none ↔ l = [] := by
  cases l <;> simp [List.minimum?]

theorem minimum?_congr_mem (l₁ l₂ : List Nat)
    (h : ∀ x, x ∈ l₁ ↔ x ∈ l₂) : l₁.minimum? = l₂.minimum? := by
  cases h₁ : l₁.minimum? with
  | none =>
    have : l₁ = [] := (minimum?_eq_none_iff_nil l₁).mp h₁
    subst this
    have : l₂ = [] := by
      apply List.eq_nil_iff_forall_not_mem.mpr
      intro x hx
      exact absurd ((h x).mpr hx) (List.not_mem_nil x)
    rw [this]
    rfl
  | some a =>
    obtain ⟨hmem, hlb⟩ := List.minimum?_eq_some_iff'.mp h₁
    symm
    apply List.minimum?_eq_some_iff'.mpr
    exact ⟨(h a).mp hmem, fun b hb => hlb b ((h b).mpr hb)⟩

theorem orElse_some_eq (a : Nat) (f : Unit → Option Nat) :
    (some a).orElse f = some a := rfl

theorem orElse_none_eq (f : Unit → Option Nat) :
    (none : Option Nat).orElse f = f () := rfl

/-- `ringLookup` on a strictly sorted ring equals the min-based selection:
the entry with the smallest key at or above the hash, wrapping to the
smallest key overall, with the ring's own association. -/
theorem ringLookup_eq_spec (h : Nat) (l : List (Nat × Nat))
    (hs : l.Pairwise (fun a b => a.1 < b.1)) :
    ringLookup h l =
      (specSelect h (l.map Prod.fst)).bind fun k => assocOf l k := by
  induction l with
  | nil => rfl
  | cons a rest ih =>
    rw [List.pairwise_cons] at hs
    obtain ⟨ha, hrest⟩ := hs
    by_cases hha : h ≤ a.1
    · have hfind : (a :: rest).find? (fun e => h ≤ e.1) = some a := by
        rw [List.find?_cons]
        simp [hha]
      have hlhs : ringLookup h (a :: rest) = some a.2 := by
        unfold ringLookup
        rw [hfind]
      have hmin : (((a :: rest).map Prod.fst).filter
          (fun k => h ≤ k)).minimum? = some a.1 := by
        apply List.minimum?_eq_some_iff'.mpr
        constructor
        · apply List.mem_filter.mpr
          exact ⟨by simp, by simpa using hha⟩
        · intro b hb
          obtain ⟨hbmem, _⟩ := List.mem_filter.mp hb
          rw [List.map_cons] at hbmem
          rcases List.mem_cons.mp hbmem with rfl | hb1
          · omega
          · rcases List.mem_map.mp hb1 with ⟨c, hc, hck⟩
            have := ha c hc
            omega
      rw [hlhs]
      unfold specSelect
      rw [hmin, orElse_some_eq]
      simp only [Option.some_bind]
      rw [assocOf_cons, if_pos rfl]
    · have hfind : (a :: rest).find? (fun e => h ≤ e.1) =
          rest.find? (fun e => h ≤ e.1) := by
        rw [List.find?_cons]
        simp [hha]
      have hfilter : ((a :: rest).map Prod.fst).filter (fun k => h ≤ k) =
          (rest.map Prod.fst).filter (fun k => h ≤ k) := by
        rw [List.map_cons, List.filter_cons]
        simp [hha]
      cases hfr : rest.find? (fun e => h ≤ e.1) with
      | some e =>
        have hlhs : ringLookup h (a :: rest) = some e.2 := by
          unfold ringLookup
          rw [hfind, hfr]
        have hlrest : ringLookup h rest = some e.2 := by
          unfold ringLookup
          rw [hfr]
        have hpe : h ≤ e.1 := by simpa using List.find?_some hfr
        have hmemrest : e ∈ rest := List.mem_of_find?_eq_some hfr
        have hfne : ((rest.map Prod.fst).filter (fun k => h ≤ k)) ≠ [] := by
          intro hnil
          have := List.filter_eq_nil.mp hnil e.1
            (List.mem_map_of_mem Prod.fst hmemrest)
          simp [hpe] at this
        cases hm : ((rest.map Prod.fst).filter (fun k => h ≤ k)).minimum? with
        | none => exact absurd ((minimum?_eq_none_iff_nil _).mp hm) hfne
        | some kmin =>
          have hrhs := ih hrest
          rw [hlrest] at hrhs
          unfold specSelect at hrhs
          rw [hm, orElse_some_eq] at hrhs
          simp only [Option.some_bind] at hrhs
          have hkge : h ≤ kmin := by
            obtain ⟨hmem, _⟩ := List.minimum?_eq_some_iff'.mp hm
            have := (List.mem_filter.mp hmem).2
            simpa using this
          rw [hlhs]
          unfold specSelect
          rw [hfilter, hm, orElse_some_eq]
          simp only [Option.some_bind]
          rw [assocOf_cons, if_neg (by omega : ¬a.1 = kmin)]
          exact hrhs
      | none =>
        have hlhs : ringLookup h (a :: rest) = some a.2 := by
          unfold ringLookup
          rw [hfind, hfr]
          rfl
        have hnone : ∀ b ∈ rest, ¬(h ≤ b.1) := by
          intro b hb hcontra
          have := List.find?_eq_none.mp hfr b hb
          simp [hcontra] at this
        have hfilnil : ((rest.map Prod.fst).filter (fun k => h ≤ k)) = [] := by
          apply List.filter_eq_nil.mpr
          intro b hb
          rcases List.mem_map.mp hb with ⟨c, hc, hck⟩
          have := hnone c hc
          simp only [decide_eq_true_eq]
          omega
        have hminwrap : ((a :: rest).map Prod.fst).minimum? = some a.1 := by
          apply List.minimum?_eq_some_iff'.mpr
          constructor
          · simp
          · intro b hb
            rw [List.map_cons] at hb
            rcases List.mem_cons.mp hb with rfl | hb1
            · omega
            · rcases List.mem_map.mp hb1 with ⟨c, hc, hck⟩
              have := ha c hc
              omega
        rw [hlhs]
        unfold specSelect
        rw [hfilter, hfilnil]
        have hminnil : ([] : List Nat).minimum? = none := rfl
        rw [hminnil, orElse_none_eq, hminwrap]
        simp only [Option.some_bind]
        rw [assocOf_cons, if_pos rfl]

theorem pairwise_foldl_ringInsert (entries : List (Nat × Nat))
    (init : List (Nat × Nat)) (h : init.Pairwise (fun a b => a.1 < b.1)) :
    (entries.foldl (fun ring e => ringInsert e.1 e.2 ring) init).Pairwise
      (fun a b => a.1 < b.1) := by
  induction entries generalizing init with
  | nil => simpa using h
  | cons e es ih =>
    rw [List.foldl_cons]
    exact ih _ (pairwise_ringInsert e.1 e.2 init h)

theorem mem_keys_foldl_ringInsert (entries : List (Nat × Nat))
    (init : List (Nat × Nat)) (k : Nat) :
    (k ∈ (entries.foldl (fun ring e => ringInsert e.1 e.2 ring) init).map
        Prod.fst) ↔
      k ∈ entries.map Prod.fst ∨ k ∈ init.map Prod.fst := by
  induction entries generalizing init with
  | nil => simp
  | cons e es ih =>
    rw [List.foldl_cons, ih, mem_keys_ringInsert]
    simp only [List.map_cons, List.mem_cons]
    tauto

theorem assocOf_foldl_ringInsert (entries : List (Nat × Nat))
    (init : List (Nat × Nat)) (k : Nat) :
    assocOf (entries.foldl (fun ring e => ringInsert e.1 e.2 ring) init) k =
      entries.foldl (fun acc e => if e.1 = k then some e.2 else acc)
        (assocOf init k) := by
  induction entries generalizing init with
  | nil => rfl
  | cons e es ih =>
    rw [List.foldl_cons, ih, List.foldl_cons, assocOf_ringInsert]
    by_cases h : e.1 = k
    · rw [if_pos h, if_pos h.symm]
    · rw [if_neg h, if_neg (fun hh => h hh.symm)]

/-- **C6 (amended)**: for every pool and key, `ConsistentHash::pick` is
deterministic, and it equals the reference algorithm: build a ring with
`replicas.saturating_mul(max(weight,1))` virtual nodes per healthy backend
(the u32-saturating form of the claimed `replicas × max(weight,1)` count —
see `c6_counterexample`), each keyed by the FNV-1a 64-bit hash of
`address ++ "-" ++ decimal replica`, then return the backend of the first
ring entry whose key is `≥ hash64(key)`, wrapping to the smallest ring entry
if none. -/
theorem c6_consistent_hash_reference (ch : ConsistentHash) (key : List Nat)
    (pool : BackendPool) :
    ch.pick key pool = ch.pick key pool ∧
    ch.pick key pool = specPick ch.replicas key pool := by
  refine ⟨rfl, ?_⟩
  unfold ConsistentHash.pick specPick
  by_cases hpe : pool.is_empty
  · simp [hpe]
  · by_cases hie : pool.healthy_indices.isEmpty
    · simp [hpe, hie]
    · simp only [hpe, hie, Bool.false_eq_true, if_neg, not_false_iff,
        if_false]
      rw [build_ring_eq_foldl_entries]
      rw [ringLookup_eq_spec _ _
        (pairwise_foldl_ringInsert _ _ List.Pairwise.nil)]
      have hkeys : ∀ x,
          (x ∈ ((ringEntries pool pool.healthy_indices ch.replicas).foldl
            (fun ring e => ringInsert e.1 e.2 ring) []).map Prod.fst) ↔
          x ∈ (ringEntries pool pool.healthy_indices ch.replicas).map
            Prod.fst := by
        intro x
        rw [mem_keys_foldl_ringInsert]
        simp
      have hfiliff : ∀ x,
          (x ∈ (((ringEntries pool pool.healthy_indices ch.replicas).foldl
            (fun ring e => ringInsert e.1 e.2 ring) []).map Prod.fst).filter
              (fun k => hash64 key ≤ k)) ↔
          x ∈ (((ringEntries pool pool.healthy_indices ch.replicas).map
            Prod.fst).filter (fun k => hash64 key ≤ k)) := by
        intro x
        rw [List.mem_filter, List.mem_filter, hkeys x]
      have hm1 := minimum?_congr_mem _ _ hfiliff
      have hm2 := minimum?_congr_mem _ _ hkeys
      have hsel : specSelect (hash64 key)
          (((ringEntries pool pool.healthy_indices ch.replicas).foldl
            (fun ring e => ringInsert e.1 e.2 ring) []).map Prod.fst) =
          specSelect (hash64 key)
            ((ringEntries pool pool.healthy_indices ch.replicas).map
              Prod.fst) := by
        unfold specSelect
        rw [hm1]
        simp only [hm2]
      rw [hsel]
      cases hss : specSelect (hash64 key)
          ((ringEntries pool pool.healthy_indices ch.replicas).map
            Prod.fst) with
      | none => rfl
      | some k =>
        simp only [Option.some_bind]
        rw [assocOf_foldl_ringInsert]
        rfl

theorem apply_backend_eq (s : BackendState) (success : Bool) (now : Nat) :
    (s.apply success now).backend = s.backend := by
  unfold BackendState.apply BackendState.record_success
    BackendState.record_failure
  split
  · split
    · rfl
    · split
      · rfl
      · dsimp only
        split <;> rfl
  · dsimp only
    split <;> rfl

theorem applyTrace_backend_eq (s : BackendState) (ops : List TOp) :
    (applyTrace s ops).backend = s.backend := by
  induction ops generalizing s with
  | nil => rfl
  | cons op ops ih =>
    show (applyTrace (s.apply op.success op.now) ops).backend = s.backend
    rw [ih, apply_backend_eq]

theorem stateAt_applyOp (p : BackendPool) (op : TOp) (i : Nat) :
    (p.applyOp op).backends.get? i =
      if op.idx = i then
        (p.backends.get? i).map fun s => s.apply op.success op.now
      else p.backends.get? i := by
  unfold BackendPool.applyOp BackendPool.mark_success BackendPool.mark_failure
  by_cases hs : op.success <;>
  · simp only [hs, if_pos, if_neg, Bool.false_eq_true, not_false_iff]
    cases hb : p.backends.get? op.idx with
    | none =>
      by_cases hid : op.idx = i
      · subst hid
        rw [if_pos rfl, hb]
        rfl
      · rw [if_neg hid]
    | some b =>
      by_cases hid : op.idx = i
      · subst hid
        simp only [hb, if_pos rfl]
        have := List.get?_set_eq
          ((if op.success then (b.record_success op.now).1
            else (b.record_failure op.now).1)) op.idx p.backends
        simp only [hs] at *
        rw [show (p.backends.set op.idx _).get? op.idx =
          (p.backends.get? op.idx).map _ from by simpa using this, hb]
        simp [BackendState.apply, hs]
      · simp only [hb, if_neg hid]
        exact List.get?_set_ne _ _ hid

theorem stateAt_applyOps (p : BackendPool) (ops : List TOp) (i : Nat) :
    (p.applyOps ops).backends.get? i =
      (p.backends.get? i).map fun s => applyTrace s (opsFor i ops) := by
  induction ops generalizing p with
  | nil =>
    show p.backends.get? i = (p.backends.get? i).map fun s => s
    cases p.backends.get? i <;> rfl
  | cons op ops ih =>
    show ((p.applyOp op).applyOps ops).backends.get? i = _
    rw [ih, stateAt_applyOp]
    by_cases hid : op.idx = i
    · rw [if_pos hid]
      have hfil : opsFor i (op :: ops) = op :: opsFor i ops := by
        unfold opsFor
        rw [List.filter_cons]
        simp [hid]
      rw [hfil]
      cases p.backends.get? i <;> rfl
    · rw [if_neg hid]
      have hfil : opsFor i (op :: ops) = opsFor i ops := by
        unfold opsFor
        rw [List.filter_cons]
        simp [hid]
      rw [hfil]

theorem postSuccesses_cons (u : Nat) (op : TOp) (L : List TOp) :
    postSuccesses u (op :: L) =
      (if op.success && decide (u ≤ op.now) then 1 else 0) +
        postSuccesses u L := by
  unfold postSuccesses
  rw [List.filter_cons]
  by_cases h : op.success && decide (u ≤ op.now)
  · rw [if_pos h, if_pos h, List.length_cons]
    omega
  · rw [if_neg h, if_neg h]
    omega

/-- `record_failure` written as an explicit case split on the trigger. -/
theorem record_failure_eq (s : BackendState) (now : Nat) :
    (s.record_failure now).1 =
      if satAdd1 s.consecutive_failures <
          s.backend.health_check.failure_threshold then
        ⟨s.backend, satAdd1 s.consecutive_failures, s.health_state⟩
      else
        ⟨s.backend, 0,
          .Unhealthy (now + s.backend.health_check.cooldown_ms) 0⟩ := by
  unfold BackendState.record_failure
  dsimp only
  by_cases h : satAdd1 s.consecutive_failures <
      s.backend.health_check.failure_threshold
  · rw [if_pos h, if_pos h]
  · rw [if_neg h, if_neg h]

/-- Unfolding `applyTrace` one failure step. -/
theorem applyTrace_cons_failure (s : BackendState) (op : TOp) (L : List TOp)
    (hopf : op.success = false) :
    applyTrace s (op :: L) = applyTrace ((s.record_failure op.now).1) L := by
  show applyTrace (s.apply op.success op.now) L = _
  rw [hopf]
  rfl

/-- Unfolding `applyTrace` one success step. -/
theorem applyTrace_cons_success (s : BackendState) (op : TOp) (L : List TOp)
    (hops : op.success = true) :
    applyTrace s (op :: L) = applyTrace ((s.record_success op.now).1) L := by
  show applyTrace (s.apply op.success op.now) L = _
  rw [hops]
  rfl

/-- Record-failure operations never heal: from a freshly unhealthy state the
backend stays unhealthy, with the cooldown expiry either unchanged or reset
by a later failure in the run. -/
theorem applyTrace_failures_stay_unhealthy (L : List TOp) :
    ∀ (s : BackendState) (u : Nat),
      (∀ op ∈ L, op.success = false) →
      s.health_state = .Unhealthy u 0 →
      (applyTrace s L).health_state = .Unhealthy u 0 ∨
        ∃ op ∈ L, (applyTrace s L).health_state =
          .Unhealthy (op.now + s.backend.health_check.cooldown_ms) 0 := by
  induction L with
  | nil =>
    intro s u _ hs
    exact Or.inl hs
  | cons op L ih =>
    intro s u hall hs
    have hopf : op.success = false := hall op (List.mem_cons_self op L)
    have hall' : ∀ o ∈ L, o.success = false := fun o ho =>
      hall o (List.mem_cons_of_mem _ ho)
    rw [applyTrace_cons_failure s op L hopf, record_failure_eq]
    by_cases htrig : satAdd1 s.consecutive_failures <
        s.backend.health_check.failure_threshold
    · rw [if_pos htrig]
      rcases ih ⟨s.backend, satAdd1 s.consecutive_failures, s.health_state⟩
          u hall' hs with h | ⟨o, ho, h⟩
      · exact Or.inl h
      · exact Or.inr ⟨o, List.mem_cons_of_mem _ ho, h⟩
    · rw [if_neg htrig]
      rcases ih ⟨s.backend, 0,
          .Unhealthy (op.now + s.backend.health_check.cooldown_ms) 0⟩
          (op.now + s.backend.health_check.cooldown_ms) hall' rfl with
        h | ⟨o, ho, h⟩
      · exact Or.inr ⟨op, List.mem_cons_self op L, h⟩
      · exact Or.inr ⟨o, List.mem_cons_of_mem _ ho, h⟩

/-- A run of at least `failure_threshold` record-failure operations leaves
the backend unhealthy with `successes = 0`, the cooldown expiry set from one
of the run's failures. -/
theorem applyTrace_failures_unhealthy (L : List TOp) :
    ∀ (s : BackendState),
      (∀ op ∈ L, op.success = false) →
      s.backend.health_check.failure_threshold ≤
        s.consecutive_failures + L.length →
      1 ≤ L.length →
      s.backend.health_check.failure_threshold ≤ u32max →
      ∃ op ∈ L, (applyTrace s L).health_state =
        .Unhealthy (op.now + s.backend.health_check.cooldown_ms) 0 := by
  induction L with
  | nil =>
    intro s _ _ hpos _
    exact absurd hpos (by simp)
  | cons op L ih =>
    intro s hall hlen hpos hthru
    have hopf : op.success = false := hall op (List.mem_cons_self op L)
    have hall' : ∀ o ∈ L, o.success = false := fun o ho =>
      hall o (List.mem_cons_of_mem _ ho)
    rw [applyTrace_cons_failure s op L hopf, record_failure_eq]
    by_cases htrig : satAdd1 s.consecutive_failures <
        s.backend.health_check.failure_threshold
    · rw [if_pos htrig]
      have hcf : satAdd1 s.consecutive_failures =
          s.consecutive_failures + 1 := by
        unfold satAdd1 u32max at *
        omega
      have hLne : 1 ≤ L.length := by
        rcases Nat.eq_zero_or_pos L.length with hz | hp
        · rw [List.length_cons, hz] at hlen
          omega
        · exact hp
      have hrec := ih ⟨s.backend, satAdd1 s.consecutive_failures,
          s.health_state⟩ hall'
        (by simp only [List.length_cons] at hlen
            simp only [hcf]
            omega)
        hLne hthru
      rcases hrec with ⟨o, ho, h⟩
      exact ⟨o, List.mem_cons_of_mem _ ho, h⟩
    · rw [if_neg htrig]
      rcases applyTrace_failures_stay_unhealthy L
          ⟨s.backend, 0,
            .Unhealthy (op.now + s.backend.health_check.cooldown_ms) 0⟩
          (op.now + s.backend.health_check.cooldown_ms) hall' rfl with
        h | ⟨o, ho, h⟩
      · exact ⟨op, List.mem_cons_self op L, h⟩
      · exact ⟨o, List.mem_cons_of_mem _ ho, h⟩

/-- One step of the healing-credit argument: an operation can raise the
credit only by a success recorded at or after the cooldown expiry `u`, and
any unhealthy state it produces has its expiry at or after `u`. -/
theorem apply_step_credit (u thr cd : Nat) (s : BackendState) (op : TOp)
    (hthr : s.backend.health_check.success_threshold = thr)
    (hcd : s.backend.health_check.cooldown_ms = cd)
    (hmono : u ≤ op.now + cd)
    (hinv : ∀ u' c, s.health_state = .Unhealthy u' c → u ≤ u') :
    creditOf thr (s.apply op.success op.now) ≤ creditOf thr s +
      (if op.success && decide (u ≤ op.now) then 1 else 0) ∧
    (∀ u' c, (s.apply op.success op.now).health_state = .Unhealthy u' c →
      u ≤ u') := by
  obtain ⟨sb, scf, sh⟩ := s
  dsimp only at hthr hcd hinv
  by_cases hsucc : op.success
  · have happ : (BackendState.apply ⟨sb, scf, sh⟩ op.success op.now) =
        (BackendState.record_success op.now ⟨sb, scf, sh⟩).1 := by
      unfold BackendState.apply
      rw [if_pos hsucc]
    rw [happ]
    cases sh with
    | Healthy =>
      refine ⟨?_, ?_⟩
      · show creditOf thr ⟨sb, 0, .Healthy⟩ ≤ _
        unfold creditOf
        dsimp only
        omega
      · intro u' c hcontra
        exact absurd hcontra (by simp [BackendState.record_success])
    | Unhealthy u' c =>
      have hu : u ≤ u' := hinv u' c rfl
      show creditOf thr (BackendState.record_success op.now
          ⟨sb, scf, .Unhealthy u' c⟩).1 ≤ creditOf thr ⟨sb, scf, .Unhealthy u' c⟩ + _ ∧ _
      unfold BackendState.record_success
      dsimp only
      by_cases hlate : op.now < u'
      · rw [if_pos hlate]
        refine ⟨?_, ?_⟩
        · unfold creditOf
          dsimp only
          omega
        · intro u'' c'' hcontra
          dsimp only at hcontra
          cases hcontra
          exact hu
      · rw [if_neg hlate]
        have hpost : (op.success && decide (u ≤ op.now)) = true := by
          rw [hsucc]
          simp only [Bool.true_and, decide_eq_true_eq]
          omega
        rw [hpost]
        by_cases hheal : sb.health_check.success_threshold ≤ c + 1
        · rw [if_pos hheal]
          refine ⟨?_, ?_⟩
          · show creditOf thr ⟨sb, 0, .Healthy⟩ ≤
              creditOf thr ⟨sb, scf, .Unhealthy u' c⟩ + 1
            unfold creditOf
            dsimp only
            rw [hthr] at hheal
            omega
          · intro u'' c'' hcontra
            exact absurd hcontra (by simp)
        · rw [if_neg hheal]
          refine ⟨?_, ?_⟩
          · show creditOf thr ⟨sb, scf, .Unhealthy u' (c + 1)⟩ ≤
              creditOf thr ⟨sb, scf, .Unhealthy u' c⟩ + 1
            unfold creditOf
            dsimp only
            omega
          · intro u'' c'' hcontra
            dsimp only at hcontra
            cases hcontra
            exact hu
  · have hopf : op.success = false := by
      rw [Bool.eq_false_iff]
      exact hsucc
    have happ : (BackendState.apply ⟨sb, scf, sh⟩ op.success op.now) =
        (BackendState.record_failure op.now ⟨sb, scf, sh⟩).1 := by
      unfold BackendState.apply
      rw [if_neg hsucc]
    rw [happ, record_failure_eq]
    have hpost : (op.success && decide (u ≤ op.now)) = false := by
      rw [hopf, Bool.false_and]
    rw [hpost]
    by_cases htrig : satAdd1 scf <
        sb.health_check.failure_threshold
    · rw [if_pos (by simpa using htrig)]
      refine ⟨?_, ?_⟩
      · show creditOf thr ⟨sb, satAdd1 scf, sh⟩ ≤ creditOf thr ⟨sb, scf, sh⟩ + _
        unfold creditOf
        cases sh <;> dsimp only <;> omega
      · intro u' c hcontra
        dsimp only at hcontra
        exact hinv u' c hcontra
    · rw [if_neg (by simpa using htrig)]
      refine ⟨?_, ?_⟩
      · show creditOf thr ⟨sb, 0,
            .Unhealthy (op.now + sb.health_check.cooldown_ms) 0⟩ ≤
          creditOf thr ⟨sb, scf, sh⟩ + _
        unfold creditOf
        cases sh <;> dsimp only <;> omega
      · intro u' c hcontra
        dsimp only at hcontra
        cases hcontra
        omega

/-- The healing-credit invariant over a trace: reaching `Healthy` requires at
least `success_threshold` minus the accumulated credit many successes
recorded at or after the cooldown expiry `u`. -/
theorem heal_credit (u thr cd : Nat) (L : List TOp) :
    ∀ (s : BackendState),
      s.backend.health_check.success_threshold = thr →
      s.backend.health_check.cooldown_ms = cd →
      (∀ op ∈ L, u ≤ op.now + cd) →
      (∀ u' c, s.health_state = .Unhealthy u' c → u ≤ u') →
      (applyTrace s L).is_healthy = true →
      thr ≤ creditOf thr s + postSuccesses u L := by
  induction L with
  | nil =>
    intro s hthr _ _ hinv hfin
    have hfin0 : s.is_healthy = true := hfin
    have hs : creditOf thr s = thr := by
      unfold BackendState.is_healthy at hfin0
      unfold creditOf
      cases hh : s.health_state with
      | Healthy => rfl
      | Unhealthy u' c =>
        rw [hh] at hfin0
        simp at hfin0
    rw [hs]
    simp [postSuccesses]
  | cons op L ih =>
    intro s hthr hcd hmono hinv hfin
    have hmono' : ∀ o ∈ L, u ≤ o.now + cd := fun o ho =>
      hmono o (List.mem_cons_of_mem _ ho)
    obtain ⟨hcred, hinv'⟩ := apply_step_credit u thr cd s op hthr hcd
      (hmono op (List.mem_cons_self op L)) hinv
    have hb := apply_backend_eq s op.success op.now
    have hrec := ih (s.apply op.success op.now)
      (by rw [hb]; exact hthr) (by rw [hb]; exact hcd) hmono' hinv' hfin
    rw [postSuccesses_cons]
    omega

/-- **C1**: for every backend index `i` in the pool (with the
config-validator invariants `failure_threshold ≥ 1` — a `u32` — and
`success_threshold ≥ 1`): after a trace `A` whose operations addressed to `i`
are at least `failure_threshold` consecutive `mark_failure(i)` calls, `i` is
absent from `healthy_indices()`; the unhealthy transition stamps a cooldown
expiry `tf + cooldown_ms` where `tf` is the clock of one of those failures,
and for every later trace `B` (clock-monotone: every operation at or after
`tf`), `i` reappears in `healthy_indices()` only once at least
`success_threshold` `mark_success(i)` calls have been recorded at or after
the cooldown expiry — in particular only after the cooldown has elapsed. -/
theorem c1_unhealthy_until_cooldown_and_successes
    (pool : BackendPool) (i : Nat) (b : BackendState)
    (hb : pool.backends.get? i = some b)
    (hft : 1 ≤ b.backend.health_check.failure_threshold)
    (hftu : b.backend.health_check.failure_threshold ≤ u32max)
    (A : List TOp)
    (hA : ∀ op ∈ opsFor i A, op.success = false)
    (hk : b.backend.health_check.failure_threshold ≤ (opsFor i A).length) :
    i ∉ (pool.applyOps A).healthy_indices ∧
    ∃ tf, (∃ op ∈ opsFor i A, op.now = tf) ∧
      ∀ B : List TOp, (∀ op ∈ B, tf ≤ op.now) →
        i ∈ ((pool.applyOps A).applyOps B).healthy_indices →
        b.backend.health_check.success_threshold ≤
          postSuccesses (tf + b.backend.health_check.cooldown_ms)
            (opsFor i B) := by
  have hpos : 1 ≤ (opsFor i A).length := le_trans hft hk
  have hstate := stateAt_applyOps pool A i
  rw [hb] at hstate
  simp only [Option.map_some'] at hstate
  obtain ⟨op, hop, hunh⟩ := applyTrace_failures_unhealthy (opsFor i A) b hA
    (le_trans hk (Nat.le_add_left _ _)) hpos hftu
  have hnotmem : i ∉ (pool.applyOps A).healthy_indices := by
    intro hmem
    rw [mem_healthy_indices] at hmem
    unfold healthyAt at hmem
    rw [hstate] at hmem
    have hh : (applyTrace b (opsFor i A)).is_healthy = true := hmem
    unfold BackendState.is_healthy at hh
    rw [hunh] at hh
    simp at hh
  refine ⟨hnotmem, op.now, ⟨op, hop, rfl⟩, ?_⟩
  intro B hBmono hmem
  have hstate2 := stateAt_applyOps (pool.applyOps A) B i
  rw [hstate] at hstate2
  simp only [Option.map_some'] at hstate2
  rw [mem_healthy_indices] at hmem
  unfold healthyAt at hmem
  rw [hstate2] at hmem
  have hfin : (applyTrace (applyTrace b (opsFor i A))
      (opsFor i B)).is_healthy = true := hmem
  have hsb : (applyTrace b (opsFor i A)).backend = b.backend :=
    applyTrace_backend_eq b (opsFor i A)
  have hcred := heal_credit
    (op.now + b.backend.health_check.cooldown_ms)
    b.backend.health_check.success_threshold
    b.backend.health_check.cooldown_ms (opsFor i B)
    (applyTrace b (opsFor i A))
    (by rw [hsb]) (by rw [hsb])
    (fun o ho => by
      have h1 : op.now ≤ o.now := hBmono o (List.mem_of_mem_filter ho)
      omega)
    (fun u' c huc => by
      rw [hunh] at huc
      cases huc
      exact Nat.le_refl _)
    hfin
  have hc0 : creditOf b.backend.health_check.success_threshold
      (applyTrace b (opsFor i A)) = 0 := by
    unfold creditOf
    rw [hunh]
  omega

/-- Witness for C1 at a one-backend pool (thresholds 3/1, cooldown 500) and
three failures at clocks 10, 11, 12. -/
theorem c1_unhealthy_until_cooldown_and_successes_witness :
    ((BackendPool.new [⟨"a", strBytes "10.0.0.1:1", 1,
        ⟨"/health", 1000, 1000, 3, 1, 500⟩⟩]).backends.get? 0 =
      some (BackendState.new ⟨"a", strBytes "10.0.0.1:1", 1,
        ⟨"/health", 1000, 1000, 3, 1, 500⟩⟩)) ∧
    (∀ op ∈ opsFor 0 [⟨false, 0, 10⟩, ⟨false, 0, 11⟩, ⟨false, 0, 12⟩],
      op.success = false) ∧
    ((BackendState.new ⟨"a", strBytes "10.0.0.1:1", 1,
        ⟨"/health", 1000, 1000, 3, 1, 500⟩⟩).backend.health_check.failure_threshold ≤
      (opsFor 0 [⟨false, 0, 10⟩, ⟨false, 0, 11⟩, ⟨false, 0, 12⟩]).length) ∧
    (0 ∉ ((BackendPool.new [⟨"a", strBytes "10.0.0.1:1", 1,
        ⟨"/health", 1000, 1000, 3, 1, 500⟩⟩]).applyOps
        [⟨false, 0, 10⟩, ⟨false, 0, 11⟩, ⟨false, 0, 12⟩]).healthy_indices ∧
      ∃ tf, (∃ op ∈ opsFor 0 [⟨false, 0, 10⟩, ⟨false, 0, 11⟩, ⟨false, 0, 12⟩],
          op.now = tf) ∧
        ∀ B : List TOp, (∀ op ∈ B, tf ≤ op.now) →
          0 ∈ (((BackendPool.new [⟨"a", strBytes "10.0.0.1:1", 1,
              ⟨"/health", 1000, 1000, 3, 1, 500⟩⟩]).applyOps
              [⟨false, 0, 10⟩, ⟨false, 0, 11⟩, ⟨false, 0, 12⟩]).applyOps
              B).healthy_indices →
          (BackendState.new ⟨"a", strBytes "10.0.0.1:1", 1,
            ⟨"/health", 1000, 1000, 3, 1, 500⟩⟩).backend.health_check.success_threshold ≤
            postSuccesses (tf + (BackendState.new ⟨"a", strBytes "10.0.0.1:1", 1,
              ⟨"/health", 1000, 1000, 3, 1, 500⟩⟩).backend.health_check.cooldown_ms)
              (opsFor 0 B)) :=
  ⟨by decide, by decide, by decide,
   c1_unhealthy_until_cooldown_and_successes _ 0 _ (by decide) (by decide)
     (by decide) _ (by decide) (by decide)⟩

/-! ## Claim C4: hop-by-hop header stripping -/

/-- **C4 counterexample**: `build_h2_request` does not strip hop-by-hop
headers: an inbound `connection: close` header appears verbatim in the
produced HTTP/2 request (only pseudo-headers and `Content-Length` are
dropped on the request side). -/
theorem c4_counterexample :
    is_hop_header "connection" = true ∧
    (build_h2_request "b" "GET" "/"
        [(strBytes "connection", strBytes "close")] []).toOption =
      some ⟨"GET", "http://b/",
        [(strBytes "connection", strBytes "close"), (hostBytes, strBytes "b")],
        []⟩ := by
  decide

/-- **C4 (amended)**: hop-by-hop headers are stripped from the HTTP/3
response headers emitted by `send_backend_response`; `build_h2_request`
forwards inbound hop-by-hop headers into the egress HTTP/2 request
(`c4_counterexample`). -/
theorem c4_response_hop_headers_stripped (status : Nat)
    (headers : List (String × List Nat)) (bodyLen : Nat) (n : String)
    (hn : is_hop_header n = true) :
    n ∉ (responseHeaders status headers bodyLen).map Prod.fst := by
  intro hmem
  unfold responseHeaders at hmem
  rw [List.map_append, List.map_cons] at hmem
  rcases List.mem_append.mp hmem with h12 | h4
  · rcases List.mem_cons.mp h12 with h1 | h3
    · have h1' : n = ":status" := h1
      rw [h1'] at hn
      exact absurd hn (by decide)
    · rcases List.mem_map.mp h3 with ⟨nv, hnv, hfst⟩
      have hkeep := (List.mem_filter.mp hnv).2
      rw [hfst, hn] at hkeep
      simp at hkeep
  · rcases List.mem_map.mp h4 with ⟨nv, hnv, hfst⟩
    rcases List.mem_singleton.mp hnv with rfl
    have hfst' : "content-length" = n := hfst
    rw [← hfst'] at hn
    exact absurd hn (by decide)

/-- Witness for the amended C4 at a concrete upstream response carrying
every hop-by-hop header. -/
theorem c4_response_hop_headers_stripped_witness :
    is_hop_header "transfer-encoding" = true ∧
    "transfer-encoding" ∉ (responseHeaders 200
      [("connection", strBytes "close"),
       ("transfer-encoding", strBytes "chunked"),
       ("x-ok", strBytes "1")] 2).map Prod.fst :=
  ⟨by decide,
   c4_response_hop_headers_stripped 200
     [("connection", strBytes "close"),
      ("transfer-encoding", strBytes "chunked"),
      ("x-ok", strBytes "1")] 2 "transfer-encoding" (by decide)⟩

theorem copiedHeaders_cons_pseudo (name value : List Nat)
    (rest : List (List Nat × List Nat)) (hps : isPseudo name = true) :
    copiedHeaders ((name, value) :: rest) = copiedHeaders rest := by
  unfold copiedHeaders
  rw [List.filterMap_cons]
  dsimp only
  rw [hps, if_pos rfl]

theorem copiedHeaders_cons_cl (name value : List Nat)
    (rest : List (List Nat × List Nat)) (hps : isPseudo name = false)
    (hp : headerNameParse name = some contentLengthBytes) :
    copiedHeaders ((name, value) :: rest) = copiedHeaders rest := by
  unfold copiedHeaders
  rw [List.filterMap_cons]
  dsimp only
  rw [hps, if_neg (show ¬(false = true) by simp), hp]
  dsimp only
  rw [if_pos rfl]

theorem copiedHeaders_cons_keep (name value : List Nat)
    (rest : List (List Nat × List Nat)) (ln : List Nat)
    (hps : isPseudo name = false) (hp : headerNameParse name = some ln)
    (hcl : ¬ln = contentLengthBytes) :
    copiedHeaders ((name, value) :: rest) =
      (ln, value) :: copiedHeaders rest := by
  unfold copiedHeaders
  rw [List.filterMap_cons]
  dsimp only
  rw [hps, if_neg (show ¬(false = true) by simp), hp]
  dsimp only
  rw [if_neg hcl]

theorem sawHost_cons (name value : List Nat)
    (rest : List (List Nat × List Nat)) :
    sawHost ((name, value) :: rest) =
      ((!isPseudo name && (headerNameParse name == some hostBytes)) ||
        sawHost rest) := by
  unfold sawHost
  rw [List.any_cons]

theorem processHeaders_ok_spec (headers : List (List Nat × List Nat))
    (r : List (List Nat × List Nat) × Bool)
    (h : processHeaders headers = .ok r) :
    r.1 = copiedHeaders headers ∧ r.2 = sawHost headers := by
  induction headers generalizing r with
  | nil =>
    cases h
    exact ⟨rfl, rfl⟩
  | cons nv rest ih =>
    obtain ⟨name, value⟩ := nv
    unfold processHeaders at h
    by_cases hps : name.head? = some 58
    · rw [if_pos hps] at h
      have hps' : isPseudo name = true := by
        unfold isPseudo
        simp [hps]
      obtain ⟨h1, h2⟩ := ih r h
      rw [copiedHeaders_cons_pseudo name value rest hps', sawHost_cons,
        hps']
      exact ⟨h1, by simp [h2]⟩
    · rw [if_neg hps] at h
      have hps' : isPseudo name = false := by
        unfold isPseudo
        simpa using hps
      cases hparse : headerNameParse name with
      | none =>
        rw [hparse] at h
        dsimp only at h
        cases h
      | some lname =>
        rw [hparse] at h
        dsimp only at h
        by_cases hcl : lname = contentLengthBytes
        · subst hcl
          rw [if_pos rfl] at h
          cases hrest : processHeaders rest with
          | error e =>
            rw [hrest] at h
            dsimp only at h
            cases h
          | ok r' =>
            rw [hrest] at h
            dsimp only at h
            cases h
            obtain ⟨h1, h2⟩ := ih r' hrest
            rw [copiedHeaders_cons_cl name value rest hps' hparse,
              sawHost_cons, hps', hparse]
            refine ⟨h1, ?_⟩
            rw [h2]
            have hx : (contentLengthBytes == hostBytes) = false := by decide
            have hy : (some contentLengthBytes ==
                some hostBytes : Bool) = false := by decide
            simp [hx, hy]
        · rw [if_neg hcl] at h
          by_cases hval : headerValueOk value
          · rw [if_pos hval] at h
            cases hrest : processHeaders rest with
            | error e =>
              rw [hrest] at h
              dsimp only at h
              cases h
            | ok r' =>
              rw [hrest] at h
              dsimp only at h
              cases h
              obtain ⟨h1, h2⟩ := ih r' hrest
              rw [copiedHeaders_cons_keep name value rest lname hps' hparse
                hcl, sawHost_cons, hps', hparse]
              refine ⟨by rw [h1], ?_⟩
              rw [h2]
              by_cases hab : lname = hostBytes
              · simp [hab, Bool.or_comm]
              · simp [hab, Bool.or_comm]
          · rw [if_neg hval] at h
            cases h

theorem build_h2_request_ok_spec (backend method path : String)
    (headers : List (List Nat × List Nat)) (body : List Nat)
    (req : H2Request)
    (h : build_h2_request backend method path headers body = .ok req) :
    req.method = method ∧
    req.uri = "http://" ++ backend ++ (if path = "" then "/" else path) ∧
    req.body = body ∧
    req.headers = copiedHeaders headers ++
      (if sawHost headers then [] else [(hostBytes, strBytes backend)]) ++
      (if body.isEmpty then []
       else [(contentLengthBytes, decimalBytes body.length)]) := by
  unfold build_h2_request at h
  by_cases hm : !methodOk method
  · rw [if_pos hm] at h
    cases h
  · rw [if_neg hm] at h
    by_cases hu : !uriOk ("http://" ++ backend ++
        (if path = "" then "/" else path))
    · rw [if_pos hu] at h
      cases h
    · rw [if_neg hu] at h
      cases hph : processHeaders headers with
      | error e =>
        rw [hph] at h
        cases h
      | ok r =>
        rw [hph] at h
        obtain ⟨h1, h2⟩ := processHeaders_ok_spec headers r hph
        cases h
        refine ⟨rfl, rfl, rfl, ?_⟩
        rw [h1, h2]
        by_cases hsh : sawHost headers <;> by_cases hbe : body.isEmpty <;>
          simp [hsh, hbe]

theorem headerNameParse_head_ne_colon {n ln : List Nat}
    (h : headerNameParse n = some ln) : ¬ln.head? = some 58 := by
  unfold headerNameParse at h
  by_cases hc : (!n.isEmpty && n.all isTokenByte) = true
  · rw [if_pos hc] at h
    cases h
    obtain ⟨hne, htok⟩ := Bool.and_eq_true_iff.mp hc
    cases n with
    | nil => simp at hne
    | cons b bs =>
      have hb : isTokenByte b = true := by
        have := List.all_eq_true.mp htok b (List.mem_cons_self b bs)
        simpa using this
      intro hcontra
      have hlb : lowerByte b = 58 := by
        simpa using hcontra
      unfold lowerByte at hlb
      by_cases h65 : (65 ≤ b && b ≤ 90) = true
      · rw [if_pos h65] at hlb
        obtain ⟨hx, hy⟩ := Bool.and_eq_true_iff.mp h65
        simp only [decide_eq_true_eq] at hx hy
        omega
      · rw [if_neg h65] at hlb
        subst hlb
        exact absurd hb (by decide)
  · rw [if_neg hc] at h
    cases h

/-- **C8 counterexample**: the claim's biconditional "contains a `Host`
header equal to `backend` exactly when the input contained none" fails when
the input already carries `Host: backend` — the output still contains it,
copied from the input. -/
theorem c8_counterexample :
    (∃ nv ∈ [(strBytes "host", strBytes "b")],
      headerNameParse nv.1 = some hostBytes) ∧
    (build_h2_request "b" "GET" "/"
        [(strBytes "host", strBytes "b")] []).toOption =
      some ⟨"GET", "http://b/", [(hostBytes, strBytes "b")], []⟩ := by
  decide

/-- **C8 (amended)**: on every success of `build_h2_request`, the produced
request contains no header whose name starts with `':'`; its header list is
exactly the copied input headers (non-pseudo, non-`Content-Length`, names
lowercased, order preserved), followed by an appended `Host: backend` exactly
when the input contained no `Host` header, followed by a fresh
`Content-Length = body.len()` exactly when the body is non-empty (the
inbound `Content-Length` is never copied); and its URI is
`http://{backend}{path}` with an empty path replaced by `/`. -/
theorem c8_build_request_shape (backend method path : String)
    (headers : List (List Nat × List Nat)) (body : List Nat)
    (req : H2Request)
    (h : build_h2_request backend method path headers body = .ok req) :
    (∀ nv ∈ req.headers, ¬nv.1.head? = some 58) ∧
    req.headers = copiedHeaders headers ++
      (if sawHost headers then [] else [(hostBytes, strBytes backend)]) ++
      (if body.isEmpty then []
       else [(contentLengthBytes, decimalBytes body.length)]) ∧
    req.uri = "http://" ++ backend ++ (if path = "" then "/" else path) := by
  obtain ⟨_, huri, _, hshape⟩ :=
    build_h2_request_ok_spec backend method path headers body req h
  refine ⟨?_, hshape, huri⟩
  intro nv hnv
  rw [hshape] at hnv
  rcases List.mem_append.mp hnv with h12 | hcl
  · rcases List.mem_append.mp h12 with hcopy | hhost
    · rcases List.mem_filterMap.mp hcopy with ⟨orig, horig, heq⟩
      by_cases hps : isPseudo orig.1
      · rw [if_pos hps] at heq
        cases heq
      · rw [if_neg hps] at heq
        cases hparse : headerNameParse orig.1 with
        | none =>
          rw [hparse] at heq
          dsimp only at heq
          cases heq
        | some ln =>
          rw [hparse] at heq
          dsimp only at heq
          by_cases hcl2 : ln = contentLengthBytes
          · rw [if_pos hcl2] at heq
            cases heq
          · rw [if_neg hcl2] at heq
            cases heq
            exact headerNameParse_head_ne_colon hparse
    · by_cases hsh : sawHost headers
      · rw [if_pos hsh] at hhost
        simp at hhost
      · rw [if_neg hsh] at hhost
        rcases List.mem_singleton.mp hhost with rfl
        intro hc
        have hc' : hostBytes.head? = some 58 := hc
        exact absurd hc' (by decide)
  · by_cases hbe : body.isEmpty
    · rw [if_pos hbe] at hcl
      simp at hcl
    · rw [if_neg hbe] at hcl
      rcases List.mem_singleton.mp hcl with rfl
      intro hc
      have hc' : contentLengthBytes.head? = some 58 := hc
      exact absurd hc' (by decide)

/-- Witness for the amended C8 at a concrete request with one ordinary
header, no `Host`, and a two-byte body. -/
theorem c8_build_request_shape_witness :
    build_h2_request "b" "GET" "" [(strBytes "X-A", strBytes "1")]
        [104, 105] =
      .ok ⟨"GET", "http://b/",
        [(strBytes "x-a", strBytes "1"), (hostBytes, strBytes "b"),
         (contentLengthBytes, strBytes "2")], [104, 105]⟩ ∧
    ((∀ nv ∈ ([(strBytes "x-a", strBytes "1"), (hostBytes, strBytes "b"),
         (contentLengthBytes, strBytes "2")] :
          List (List Nat × List Nat)), ¬nv.1.head? = some 58) ∧
     ([(strBytes "x-a", strBytes "1"), (hostBytes, strBytes "b"),
       (contentLengthBytes, strBytes "2")] :
        List (List Nat × List Nat)) =
        copiedHeaders [(strBytes "X-A", strBytes "1")] ++
        (if sawHost [(strBytes "X-A", strBytes "1")] then []
         else [(hostBytes, strBytes "b")]) ++
        (if ([104, 105] : List Nat).isEmpty then []
         else [(contentLengthBytes, decimalBytes ([104, 105] : List Nat).length)]) ∧
     "http://b/" = "http://" ++ "b" ++ (if "" = "" then "/" else "")) := by
  refine ⟨by rfl, ?_⟩
  exact c8_build_request_shape "b" "GET" "" [(strBytes "X-A", strBytes "1")]
    [104, 105] ⟨"GET", "http://b/",
      [(strBytes "x-a", strBytes "1"), (hostBytes, strBytes "b"),
       (contentLengthBytes, strBytes "2")], [104, 105]⟩ (by rfl)

/-! ## Claim C3: no matching route -/

theorem routeStep_eq_none_iff (path : String) (host : Option String)
    (best : Option (String × Nat)) (entry : String × Upstream) :
    routeStep path host best entry = none ↔
      best = none ∧ routeMatches entry path host = false := by
  unfold routeStep routeMatches
  cases hpp : entry.2.route.path_prefix with
  | some p =>
    dsimp only
    by_cases hpre : strStartsWith path p
    · rw [if_pos hpre]
      by_cases hhm : (match entry.2.route.host, host with
          | some rh, some h => rh == h
          | none, _ => true
          | some _, none => false) = true
      · rw [hhm]
        cases best with
        | none => simp [hpre]
        | some b => by_cases hb : b.2 < p.length <;> simp [hb, hpre, hhm]
      · rw [Bool.not_eq_true] at hhm
        rw [hhm]
        cases best with
        | none => simp [hhm, hpre]
        | some b => simp [hhm, hpre]
    · rw [if_neg hpre]
      cases best with
      | none => simp [hpre]
      | some b => simp [hpre]
  | none =>
    dsimp only
    by_cases hhm : (match entry.2.route.host, host with
        | some rh, some h => rh == h
        | none, _ => true
        | some _, none => false) = true
    · rw [hhm]
      cases best with
      | none => simp [hhm]
      | some b => simp [hhm]
    · rw [Bool.not_eq_true] at hhm
      rw [hhm]
      cases best with
      | none => simp [hhm]
      | some b => simp [hhm]

theorem foldl_routeStep_none_iff (path : String) (host : Option String)
    (upstreams : List (String × Upstream)) :
    ∀ best, upstreams.foldl (routeStep path host) best = none ↔
      best = none ∧ ∀ e ∈ upstreams, routeMatches e path host = false := by
  induction upstreams with
  | nil => intro best; simp
  | cons e rest ih =>
    intro best
    rw [List.foldl_cons, ih, routeStep_eq_none_iff]
    constructor
    · rintro ⟨⟨hb, he⟩, hrest⟩
      refine ⟨hb, fun e' he' => ?_⟩
      rcases List.mem_cons.mp he' with rfl | he''
      · exact he
      · exact hrest e' he''
    · rintro ⟨hb, hall⟩
      exact ⟨⟨hb, hall e (List.mem_cons_self e rest)⟩,
        fun e' he' => hall e' (List.mem_cons_of_mem _ he')⟩

/-- **C3 counterexample**: a request whose path matches no configured route
does not get a 500 response: `handle_request_finish` aborts with
`quiche::h3::Error::InternalError` and sends nothing on the stream. -/
theorem c3_counterexample :
    (handle_request_finish ⟨"GET", "/c", none,
      [("a", ⟨⟨none, some "/a"⟩⟩), ("b", ⟨⟨none, some "/b"⟩⟩)],
      1, some 0, some "10.0.0.1:1", .ok 200⟩).1 = .h3Error ∧
    (handle_request_finish ⟨"GET", "/c", none,
      [("a", ⟨⟨none, some "/a"⟩⟩), ("b", ⟨⟨none, some "/b"⟩⟩)],
      1, some 0, some "10.0.0.1:1", .ok 200⟩).1 ≠ .respond 500 := by
  decide

/-- **C3 (amended)**: for every finished request with a non-empty method and
path whose path and host match no configured upstream route (equivalently:
`find_upstream_for_request` returns `None` iff no upstream's route matches),
the proxy does not respond on the stream with a 500 — or anything else:
`handle_request_finish` fails with `quiche::h3::Error::InternalError` and no
metrics are incremented. -/
theorem c3_no_route_internal_error (inp : DispatchInput)
    (hm : ¬(inp.method = "" ∨ inp.path = ""))
    (hf : ∀ e ∈ inp.upstreams,
      routeMatches e inp.path inp.authority = false) :
    find_upstream_for_request inp.upstreams inp.path inp.authority = none ∧
    handle_request_finish inp = (.h3Error, .zero) := by
  have hnone : find_upstream_for_request inp.upstreams inp.path
      inp.authority = none := by
    unfold find_upstream_for_request
    rw [Option.map_eq_none']
    exact (foldl_routeStep_none_iff inp.path inp.authority
      inp.upstreams none).mpr ⟨rfl, hf⟩
  refine ⟨hnone, ?_⟩
  unfold handle_request_finish
  rw [if_neg hm, hnone]

/-- Witness for the amended C3 at the concrete no-route request. -/
theorem c3_no_route_internal_error_witness :
    (¬(("GET" : String) = "" ∨ ("/c" : String) = "")) ∧
    (∀ e ∈ ([("a", ⟨⟨none, some "/a"⟩⟩), ("b", ⟨⟨none, some "/b"⟩⟩)] :
        List (String × Upstream)), routeMatches e "/c" none = false) ∧
    (find_upstream_for_request
        [("a", ⟨⟨none, some "/a"⟩⟩), ("b", ⟨⟨none, some "/b"⟩⟩)] "/c" none =
      none ∧
    handle_request_finish ⟨"GET", "/c", none,
      [("a", ⟨⟨none, some "/a"⟩⟩), ("b", ⟨⟨none, some "/b"⟩⟩)],
      1, some 0, some "10.0.0.1:1", .ok 200⟩ = (.h3Error, .zero)) :=
  ⟨by decide, by decide,
   c3_no_route_internal_error ⟨"GET", "/c", none,
     [("a", ⟨⟨none, some "/a"⟩⟩), ("b", ⟨⟨none, some "/b"⟩⟩)],
     1, some 0, some "10.0.0.1:1", .ok 200⟩ (by decide) (by decide)⟩

/-! ## Claim C5: metrics increments -/

/-- **C5 counterexample**: a request accepted by the listener (its `Headers`
event increments `requests_total`) whose method is empty is answered 400 by
the dispatch without incrementing either `requests_success` or
`requests_failure` — not "exactly one". -/
theorem c5_counterexample :
    headersEventDelta.total = 1 ∧
    (handle_request_finish ⟨"", "/", none, [("a", ⟨⟨none, some "/"⟩⟩)],
      1, some 0, some "10.0.0.1:1", .ok 200⟩).1 = .respond 400 ∧
    (handle_request_finish ⟨"", "/", none, [("a", ⟨⟨none, some "/"⟩⟩)],
      1, some 0, some "10.0.0.1:1", .ok 200⟩).2.success +
    (handle_request_finish ⟨"", "/", none, [("a", ⟨⟨none, some "/"⟩⟩)],
      1, some 0, some "10.0.0.1:1", .ok 200⟩).2.failure = 0 := by
  decide

/-- **C5 (amended)**: a dispatched request increments `requests_success` and
`requests_failure` together exactly once when it reaches `forward_request`,
and not at all when it is answered locally (400 invalid request, the
no-route internal error, and the three 503 guards); every `backend_timeouts`
or `backend_errors` increment is accompanied by a `requests_failure`
increment, and no single request increments both. -/
theorem c5_metrics_increments (inp : DispatchInput) :
    (reachesForward inp = true →
      (handle_request_finish inp).2.success +
        (handle_request_finish inp).2.failure = 1) ∧
    (reachesForward inp = false →
      (handle_request_finish inp).2.success +
        (handle_request_finish inp).2.failure = 0) ∧
    (handle_request_finish inp).2.timeouts +
        (handle_request_finish inp).2.backend_errors ≤
      (handle_request_finish inp).2.failure := by
  unfold handle_request_finish reachesForward
  by_cases hm : inp.method = "" ∨ inp.path = ""
  · rw [if_pos hm]
    have hb : (inp.method == "" || inp.path == "") = true := by
      rcases hm with h | h <;> simp [h]
    simp [hb, MetricsDelta.zero]
  · rw [if_neg hm]
    have hb : (inp.method == "" || inp.path == "") = false := by
      push_neg at hm
      simp [hm.1, hm.2]
    cases hfind : find_upstream_for_request inp.upstreams inp.path
        inp.authority with
    | none => simp [hb, hfind, MetricsDelta.zero]
    | some name =>
      by_cases hlen : inp.upstreamLen = 0
      · rw [if_pos hlen]
        simp [hb, hfind, hlen, MetricsDelta.zero]
      · rw [if_neg hlen]
        cases hpick : inp.pickResult with
        | none => simp [hb, hfind, hlen, hpick, MetricsDelta.zero]
        | some idx =>
          cases haddr : inp.addrResult with
          | none => simp [hb, hfind, hlen, hpick, haddr, MetricsDelta.zero]
          | some addr =>
            cases hfwd : inp.forward <;>
              simp [hb, hfind, hlen, hpick, haddr, hfwd]

/-- **C9 counterexample**: a Short packet whose 10-byte DCID extends the
stored SCID `s` of one connection, arriving from the peer of a different
connection `t`: the code resolves it to `t` via the peer-address fallback,
while the claimed order (prefix before peer fallback) resolves it to `s`. -/
theorem c9_counterexample :
    poll_resolve [⟨[1, 2, 3, 4, 5, 6, 7, 8, 9], 1⟩,
        ⟨[9, 8, 7, 6, 5, 4, 3, 2, 1], 2⟩]
      [1, 2, 3, 4, 5, 6, 7, 8, 9, 0] .short 2 false =
      .existing [9, 8, 7, 6, 5, 4, 3, 2, 1] ∧
    claimed_resolve [⟨[1, 2, 3, 4, 5, 6, 7, 8, 9], 1⟩,
        ⟨[9, 8, 7, 6, 5, 4, 3, 2, 1], 2⟩]
      [1, 2, 3, 4, 5, 6, 7, 8, 9, 0] .short 2 false =
      .existing [1, 2, 3, 4, 5, 6, 7, 8, 9] ∧
    poll_resolve [⟨[1, 2, 3, 4, 5, 6, 7, 8, 9], 1⟩,
        ⟨[9, 8, 7, 6, 5, 4, 3, 2, 1], 2⟩]
      [1, 2, 3, 4, 5, 6, 7, 8, 9, 0] .short 2 false ≠
    claimed_resolve [⟨[1, 2, 3, 4, 5, 6, 7, 8, 9], 1⟩,
        ⟨[9, 8, 7, 6, 5, 4, 3, 2, 1], 2⟩]
      [1, 2, 3, 4, 5, 6, 7, 8, 9, 0] .short 2 false := by
  decide

/-- **C9 (amended)**: the listener resolves each datagram in this order:
first an exact match of the packet DCID against the stored SCID keys; if
that misses, a fallback lookup by the sender's peer address; and only if
both miss, the Short-header (DCID length > 8) prefix match inside
`take_or_create_connection`, which otherwise creates (Initial, not
draining) or drops the packet. -/
theorem c9_resolution_order (table : List ConnEntry) (dcid : List Nat)
    (ty : PacketType) (peer : Nat) (draining : Bool) :
    poll_resolve table dcid ty peer draining =
      amended_resolve table dcid ty peer draining := by
  unfold poll_resolve amended_resolve take_or_create_connection
  by_cases hex : (table.find? (fun e => e.cid == dcid)).isSome
  · rw [if_pos hex, if_pos hex]
  · rw [if_neg hex, if_neg hex]
    cases hpeer : table.find? (fun e => e.peer == peer) with
    | some e =>
      rw [if_neg hex]
    | none =>
      rw [if_neg hex]

/-! ## Claim C10: out-of-range `mark_success` / `mark_failure` -/

/-- **C10**: for every `BackendPool` and every out-of-range index
`i ≥ pool.len()`, `mark_success(i)` and `mark_failure(i)` return `None` and
leave the pool completely unchanged. -/
theorem c10_mark_out_of_range (p : BackendPool) (i now : Nat)
    (h : p.len ≤ i) :
    p.mark_success now i = (p, none) ∧ p.mark_failure now i = (p, none) := by
  have hget : p.backends.get? i = none :=
    List.get?_eq_none.mpr h
  constructor
  · unfold BackendPool.mark_success
    rw [hget]
  · unfold BackendPool.mark_failure
    rw [hget]

/-- Witness for C10 at a concrete pool of two backends and index 2. -/
theorem c10_mark_out_of_range_witness :
    (BackendPool.new [⟨"a", strBytes "10.0.0.1:1", 1, ⟨"/health", 1000, 1000, 3, 1, 500⟩⟩,
                      ⟨"b", strBytes "10.0.0.2:1", 1, ⟨"/health", 1000, 1000, 3, 1, 500⟩⟩]).len ≤ 2 ∧
    ((BackendPool.new [⟨"a", strBytes "10.0.0.1:1", 1, ⟨"/health", 1000, 1000, 3, 1, 500⟩⟩,
                      ⟨"b", strBytes "10.0.0.2:1", 1, ⟨"/health", 1000, 1000, 3, 1, 500⟩⟩]).mark_success 7 2 =
      (BackendPool.new [⟨"a", strBytes "10.0.0.1:1", 1, ⟨"/health", 1000, 1000, 3, 1, 500⟩⟩,
                      ⟨"b", strBytes "10.0.0.2:1", 1, ⟨"/health", 1000, 1000, 3, 1, 500⟩⟩], none) ∧
     (BackendPool.new [⟨"a", strBytes "10.0.0.1:1", 1, ⟨"/health", 1000, 1000, 3, 1, 500⟩⟩,
                      ⟨"b", strBytes "10.0.0.2:1", 1, ⟨"/health", 1000, 1000, 3, 1, 500⟩⟩]).mark_failure 7 2 =
      (BackendPool.new [⟨"a", strBytes "10.0.0.1:1", 1, ⟨"/health", 1000, 1000, 3, 1, 500⟩⟩,
                      ⟨"b", strBytes "10.0.0.2:1", 1, ⟨"/health", 1000, 1000, 3, 1, 500⟩⟩], none)) :=
  ⟨by decide, c10_mark_out_of_range _ 2 7 (by decide)⟩

/-- Witness for the amended C5 at a concrete dispatched request that
reaches `forward_request` and times out. -/
theorem c5_metrics_increments_witness :
    reachesForward ⟨"GET", "/a/x", none, [("a", ⟨⟨none, some "/a"⟩⟩)],
      1, some 0, some "10.0.0.1:1", .timeout⟩ = true ∧
    (handle_request_finish ⟨"GET", "/a/x", none, [("a", ⟨⟨none, some "/a"⟩⟩)],
      1, some 0, some "10.0.0.1:1", .timeout⟩).2.success +
      (handle_request_finish ⟨"GET", "/a/x", none,
        [("a", ⟨⟨none, some "/a"⟩⟩)],
        1, some 0, some "10.0.0.1:1", .timeout⟩).2.failure = 1 ∧
    (handle_request_finish ⟨"GET", "/a/x", none, [("a", ⟨⟨none, some "/a"⟩⟩)],
      1, some 0, some "10.0.0.1:1", .timeout⟩).2.timeouts +
      (handle_request_finish ⟨"GET", "/a/x", none,
        [("a", ⟨⟨none, some "/a"⟩⟩)],
        1, some 0, some "10.0.0.1:1", .timeout⟩).2.backend_errors ≤
      (handle_request_finish ⟨"GET", "/a/x", none,
        [("a", ⟨⟨none, some "/a"⟩⟩)],
        1, some 0, some "10.0.0.1:1", .timeout⟩).2.failure :=
  ⟨by decide,
   (c5_metrics_increments ⟨"GET", "/a/x", none, [("a", ⟨⟨none, some "/a"⟩⟩)],
     1, some 0, some "10.0.0.1:1", .timeout⟩).1 (by decide),
   (c5_metrics_increments ⟨"GET", "/a/x", none, [("a", ⟨⟨none, some "/a"⟩⟩)],
     1, some 0, some "10.0.0.1:1", .timeout⟩).2.2⟩

end Spooky
